import Mathlib

/-!
Verification of the rate-limited call envelope and chunked-extraction merge
of the SmartHireAI repository, shallowly embedded in Lean.

Sources embedded:
 - src/agents/resume_parser_agent.py       (RateLimiter, ResumeParserAgent)
 - src/SmartHireAI/agents/job_role_agent.py (RateLimiter, JobRoleAgent)

Times and similarity ratios are modelled as rationals; machine-float
arithmetic in the source only compares exact decimal constants at the
points the theorems touch, so rational arithmetic agrees there.
External collaborators (the Gemini generation service, difflib,
langchain's text splitter) are modelled from their call-site contracts
and, for the two library algorithms, from their published algorithms.
-/

namespace SmartHireAI

/-! ### RateLimiter (resume_parser_agent.py lines 15-39, job_role_agent.py lines 11-35)

Both files contain the identical class.  `wait_if_needed` takes the current
clock value `now` and the jitter drawn by `random.uniform(0.1, 2.0)`; it
returns the updated limiter plus the duration slept (0 when no sleep
happened).  The list mutation is exactly the source's: purge entries with
`now - req_time < time_window`, optionally sleep, then append `now`
(the value read before the sleep). -/

structure RateLimiter where
  max_requests : Nat
  time_window : ℚ
  requests : List ℚ
deriving DecidableEq, Repr

/-- listMin models Python `min(self.requests)` (only evaluated on a nonempty list). -/
def listMin : List ℚ → ℚ
  | [] => 0
  | x :: xs => xs.foldl min x

/-- wait_if_needed: purge old entries, compute the sleep (wait_time + jitter when
wait_time > 0), append the pre-sleep `now`.  Returns (new limiter, slept duration). -/
def wait_if_needed (rl : RateLimiter) (now : ℚ) (jitter : ℚ) : RateLimiter × ℚ :=
  let kept := rl.requests.filter (fun t => decide (now - t < rl.time_window))
  let sleepDur :=
    if kept.length ≥ rl.max_requests then
      let oldest := listMin kept
      let wait_time := oldest + rl.time_window - now
      if wait_time > 0 then wait_time + jitter else 0
    else 0
  ({ rl with requests := kept ++ [now] }, sleepDur)

/-- runAcquires folds a whole trace of calls (pairs of clock value and jitter)
through the limiter, collecting the slept durations. -/
def runAcquires (rl : RateLimiter) : List (ℚ × ℚ) → RateLimiter × List ℚ
  | [] => (rl, [])
  | (now, jit) :: rest =>
    let step := wait_if_needed rl now jit
    let tail := runAcquires step.1 rest
    (tail.1, step.2 :: tail.2)

/-- validTraceFrom says the trace is realizable in the single-threaded source:
each call's clock value is at least the previous call's return time
(previous clock plus its slept duration), and every jitter lies in [0.1, 2],
the range of `random.uniform(0.1, 2.0)`. -/
def validTraceFrom (rl : RateLimiter) (ready : ℚ) : List (ℚ × ℚ) → Bool
  | [] => true
  | (now, jit) :: rest =>
    let step := wait_if_needed rl now jit
    decide (ready ≤ now) && decide ((1:ℚ)/10 ≤ jit) && decide (jit ≤ 2) &&
      validTraceFrom step.1 (now + step.2) rest

/-- countInWindow counts recorded timestamps inside the closed window [a, a+w]. -/
def countInWindow (ts : List ℚ) (a w : ℚ) : Nat :=
  (ts.filter (fun t => decide (a ≤ t ∧ t ≤ a + w))).length

/-! ### Retry wrapper (job_role_agent.py lines 157-181)

The while-loop around `generate_content`.  One `Outcome` is the result of a
single call: `ok` carries `response.text`, `exn` carries `str(api_error)`.
An empty `response.text` raises ValueError("Empty response from Gemini AI")
inside the try, so it is handled through the same except branch.
The loop reads attempt number `retry_count` from the outcomes list.  The
result is the loop's exit together with the list of cooldown sleeps taken. -/

inductive Outcome
  | ok (text : String)
  | exn (msg : String)
deriving DecidableEq, Repr

inductive RetryResult
  | success (text : String)
  | raised (msg : String)
  | exhausted (n : Nat)
deriving DecidableEq, Repr

/-- startsWith429 checks whether a character list begins with "429". -/
def startsWith429 : List Char → Bool
  | '4' :: '2' :: '9' :: _ => true
  | _ => false

/-- contains429 models Python `"429" in str(api_error)`. -/
def contains429 : List Char → Bool
  | [] => false
  | c :: rest => startsWith429 (c :: rest) || contains429 rest

/-- max_retries is the fixed attempt budget of both retry loops. -/
def max_retries : Nat := 3

/-- retryGo runs the retry while-loop from a given `retry_count`; the fuel
argument is the measure max_retries - retry_count, so the recursion is
structural and the zero-fuel case is unreachable.
On failure with message m: increment retry_count; if "429" in m and budget
remains, sleep 35 and loop; if the budget is exactly consumed, raise the
retries-exhausted ValueError; otherwise re-raise m unchanged.  The `else`
branch of the `if` is unreachable (the loop always breaks or raises). -/
def retryGo (outcomes : List Outcome) : Nat → Nat → RetryResult × List ℚ
  | 0, _ => (.raised "response never assigned", [])
  | fuel + 1, retry_count =>
    if retry_count < max_retries then
      match outcomes.getD retry_count (.exn "no attempt") with
      | .ok t =>
        if t = "" then
          if contains429 "Empty response from Gemini AI".toList ∧ retry_count + 1 < max_retries then
            let r := retryGo outcomes fuel (retry_count + 1)
            (r.1, 35 :: r.2)
          else if retry_count + 1 = max_retries then
            (.exhausted max_retries, [])
          else (.raised "Empty response from Gemini AI", [])
        else (.success t, [])
      | .exn m =>
        if contains429 m.toList ∧ retry_count + 1 < max_retries then
          let r := retryGo outcomes fuel (retry_count + 1)
          (r.1, 35 :: r.2)
        else if retry_count + 1 = max_retries then
          (.exhausted max_retries, [])
        else (.raised m, [])
    else (.raised "response never assigned", [])

/-- retryFrom enters the loop with the full remaining budget as fuel. -/
def retryFrom (outcomes : List Outcome) (retry_count : Nat) : RetryResult × List ℚ :=
  retryGo outcomes (max_retries - retry_count) retry_count

/-- generate_with_retries is the loop entered with retry_count = 0. -/
def generate_with_retries (outcomes : List Outcome) : RetryResult × List ℚ :=
  retryFrom outcomes 0

/-- attemptFails says an attempt outcome enters the except branch
(an exception, or an empty response which raises ValueError). -/
def attemptFails : Outcome → Bool
  | .ok t => t = ""
  | .exn _ => true

/-- msgOf is str(api_error) for the exception an attempt raises. -/
def msgOf : Outcome → String
  | .ok _ => "Empty response from Gemini AI"
  | .exn m => m

/-! ### Resume structures (resume_parser_agent.py)

Entries of the four lists as cleaned by `_validate_chunk_info` (lines
360-448): that method rebuilds every entry as a dict carrying exactly the
expected keys, so accumulator entries are modelled as records (the
`isinstance(..., dict)` and `all(k in ...)` guards of later stages are then
always satisfied). -/

structure EducationEntry where
  degree : String
  institution : String
  year : String
deriving DecidableEq, Repr

structure ExperienceEntry where
  title : String
  company : String
  duration : String
  responsibilities : List String
deriving DecidableEq, Repr

structure ProjectEntry where
  name : String
  description : String
  technologies : List String
deriving DecidableEq, Repr

/-- CombinedInfo is the four-list accumulator built in parse_resume (lines 217-222). -/
structure CombinedInfo where
  education : List EducationEntry
  skills : List String
  experience : List ExperienceEntry
  projects : List ProjectEntry
deriving DecidableEq, Repr

/-- emptyCombined is the freshly created accumulator. -/
def emptyCombined : CombinedInfo := ⟨[], [], [], []⟩

/-- insertSorted inserts into a list sorted by Python string comparison (strict
lexicographic order on code points, which is String.lt). -/
def insertSorted (x : String) : List String → List String
  | [] => [x]
  | y :: ys => if x < y then x :: y :: ys else y :: insertSorted x ys

/-- sortStrs models Python `sorted(...)` on strings. -/
def sortStrs : List String → List String
  | [] => []
  | x :: xs => insertSorted x (sortStrs xs)

/-- clean_combined_info (lines 470-524): trim education fields; put nonempty
skills, trimmed, through a set and sort them; keep experience entries only
when some responsibility survives `if r` filtering; likewise projects with
technologies.  Python `str.strip` is modelled by String.trim. -/
def clean_combined_info (c : CombinedInfo) : CombinedInfo :=
  { education := c.education.map (fun e => ⟨e.degree.trim, e.institution.trim, e.year.trim⟩)
    skills := sortStrs ((c.skills.filterMap
      (fun s => if s = "" then none else some s.trim)).eraseDups)
    experience := c.experience.filterMap (fun e =>
      let resp := (e.responsibilities.filter (fun r => decide (r ≠ ""))).map String.trim
      if resp = [] then none
      else some ⟨e.title.trim, e.company.trim, e.duration.trim, resp⟩)
    projects := c.projects.filterMap (fun p =>
      let tech := (p.technologies.filter (fun t => decide (t ≠ ""))).map String.trim
      if tech = [] then none
      else some ⟨p.name.trim, p.description.trim, tech⟩) }

/-- is_valid_result (lines 526-566) mutates its argument in place, substituting
one placeholder entry in every section still empty; parse_resume keeps using
the mutated dict, so the model returns it. -/
def is_valid_result (c : CombinedInfo) : CombinedInfo :=
  { education :=
      if c.education = [] then [⟨"Not Specified", "Not Specified", "Not Specified"⟩]
      else c.education
    skills := if c.skills = [] then ["General Skills"] else c.skills
    experience :=
      if c.experience = [] then
        [⟨"Not Specified", "Not Specified", "Not Specified", ["Not Specified"]⟩]
      else c.experience
    projects :=
      if c.projects = [] then [⟨"Not Specified", "Not Specified", ["Not Specified"]⟩]
      else c.projects }

/-- finalizeInfo is the finalization pipeline applied to the accumulator in
parse_resume lines 326-329: cleaning, then the placeholder substitution. -/
def finalizeInfo (c : CombinedInfo) : CombinedInfo :=
  is_valid_result (clean_combined_info c)

/-! ### parse_resume boundary (lines 189-358)

The function first rejects blank input with ValueError (line 201-202)
before the try block; everything else sits inside `try ... except Exception`
whose handler (lines 347-358) returns the four empty lists together with a
parsing_error string.  All service interaction — chunking, per-chunk
extraction, merging, finalization — happens inside the try and is summarised
by a `body` parameter: `.ok info` is the cleaned structure the try block
returns, `.error e` is str(e) for any exception reaching line 347. -/

/-- isBlankText models `not resume_text or not resume_text.strip()`. -/
def isBlankText (t : String) : Bool :=
  t.toList.all (fun c => c.isWhitespace)

/-- ParseResult is the returned mapping: four lists plus the optional
parsing_error key (present only on the failure path). -/
structure ParseResult where
  info : CombinedInfo
  parsing_error : Option String
deriving DecidableEq, Repr

/-- parse_resume: ValueError on blank text; otherwise the body's value, with
any internal error converted to the empty-with-error-marker structure. -/
def parse_resume (resume_text : String) (body : Except String CombinedInfo) :
    Except String ParseResult :=
  if isBlankText resume_text then .error "Resume text is empty or invalid"
  else
    match body with
    | .ok info => .ok ⟨info, none⟩
    | .error e => .ok ⟨emptyCombined, some e⟩

/-! ### JSON values and Python float() -/

/-- Json models the values json.loads can produce at a score field. -/
inductive Json
  | num (q : ℚ)
  | str (s : String)
  | boolean (b : Bool)
  | null
  | arr (elems : List Json)
  | obj (fields : List (String × Json))

/-- parseNatDigits reads a digit block; none when a non-digit appears. -/
def parseNatDigits : List Char → Option ℕ
  | [] => some 0
  | c :: cs =>
    if c.isDigit then
      (parseNatDigits cs).map (fun v => (c.toNat - 48) * 10 ^ cs.length + v)
    else none

/-- parsePyFloatBody parses an unsigned decimal literal `digits[.digits]`
(at least one digit overall), the fragment of Python float-literal syntax the
score fields use; exponents and the inf/nan spellings are not modelled. -/
def parsePyFloatBody (cs : List Char) : Option ℚ :=
  match cs.splitOn '.' with
  | [intPart] =>
    if intPart = [] then none
    else (parseNatDigits intPart).map (fun v => (v : ℚ))
  | [intPart, fracPart] =>
    if intPart = [] ∧ fracPart = [] then none
    else
      match parseNatDigits intPart, parseNatDigits fracPart with
      | some i, some f => some ((i : ℚ) + (f : ℚ) / 10 ^ fracPart.length)
      | _, _ => none
  | _ => none

/-- parsePyFloat handles optional surrounding whitespace and sign. -/
def parsePyFloat (s : String) : Option ℚ :=
  let cs := (s.trim).toList
  match cs with
  | '-' :: rest => (parsePyFloatBody rest).map (fun q => -q)
  | '+' :: rest => parsePyFloatBody rest
  | _ => parsePyFloatBody cs

/-- pyFloat models `float(x)` on a json value: numbers pass through, booleans
become 0/1, numeric strings parse, and everything else raises
(ValueError/TypeError), modelled as none. -/
def pyFloat : Json → Option ℚ
  | .num q => some q
  | .boolean b => some (if b then 1 else 0)
  | .str s => parsePyFloat s
  | _ => none

/-! ### calculate_fit_score (resume_parser_agent.py lines 568-706)

The retry loop here (lines 628-645) also wraps `json.loads(response.text)`
inside the attempt, so a decode failure consumes a retry and, if re-raised,
reaches the `except json.JSONDecodeError` handler (line 678), while other
re-raised errors and the retries-exhausted ValueError reach the
`except Exception` handler (line 688).  One `FitAttempt` is one
generate_content call: `exn` for a raised call, `ok` carrying the result of
json.loads on the response text (`.error` being a decode failure). -/

inductive FitAttempt
  | exn (msg : String)
  | ok (parsed : Except String (List (String × Json)))

/-- FitLoopResult is how control leaves the retry loop. -/
inductive FitLoopResult
  | scoresOk (scores : List (String × Json))
  | jsonDecodeError (msg : String)
  | otherError (msg : String)

/-- fitRetryGo mirrors lines 628-645 with the measure max_retries -
retry_count passed as structural fuel (zero fuel is unreachable); it returns
the loop exit, the number of generate_content calls made, and the cooldown
sleeps taken. -/
def fitRetryGo (attempts : List FitAttempt) : Nat → Nat → FitLoopResult × ℕ × List ℚ
  | 0, _ => (.otherError "response never assigned", 0, [])
  | fuel + 1, retry_count =>
    if retry_count < max_retries then
      match attempts.getD retry_count (.exn "no attempt") with
      | .ok (.ok scores) => (.scoresOk scores, 1, [])
      | .ok (.error jm) =>
        if contains429 jm.toList ∧ retry_count + 1 < max_retries then
          let r := fitRetryGo attempts fuel (retry_count + 1)
          (r.1, r.2.1 + 1, 35 :: r.2.2)
        else if retry_count + 1 = max_retries then
          (.otherError "Failed to get response after 3 retries", 1, [])
        else (.jsonDecodeError jm, 1, [])
      | .exn m =>
        if contains429 m.toList ∧ retry_count + 1 < max_retries then
          let r := fitRetryGo attempts fuel (retry_count + 1)
          (r.1, r.2.1 + 1, 35 :: r.2.2)
        else if retry_count + 1 = max_retries then
          (.otherError "Failed to get response after 3 retries", 1, [])
        else (.otherError m, 1, [])
    else (.otherError "response never assigned", 0, [])

/-- fitRetryFrom enters the loop with the full remaining budget as fuel. -/
def fitRetryFrom (attempts : List FitAttempt) (retry_count : Nat) :
    FitLoopResult × ℕ × List ℚ :=
  fitRetryGo attempts (max_retries - retry_count) retry_count

/-- lookupField models Python dict access on the parsed scores object
(json.loads produces unique keys, so first match is the value). -/
def lookupField (fields : List (String × Json)) (k : String) : Option Json :=
  (fields.find? (fun p => p.1 == k)).map (fun p => p.2)

/-- normalizeField models lines 657-666 for one numeric field: missing gives
the conservative 15.0, present values go through float() and are clamped to
[0, 100], and conversion failures give 15.0. -/
def normalizeField (scores : List (String × Json)) (field : String) : ℚ :=
  match lookupField scores field with
  | none => 15
  | some v =>
    match pyFloat v with
    | some q => max 0 (min 100 q)
    | none => 15

/-- FitScores is the returned score mapping; reasoning keeps its raw json
value since the source leaves a present reasoning field untouched. -/
structure FitScores where
  skill_match_score : ℚ
  experience_relevance_score : ℚ
  education_alignment_score : ℚ
  overall_fit_score : ℚ
  reasoning : Json

/-- normalizeScores models lines 647-676: normalize the four numeric fields,
default the reasoning, and recompute the weighted overall score when the
normalized overall is falsy (0.0) or above 100 (impossible after clamping,
kept for fidelity). -/
def normalizeScores (scores : List (String × Json)) : FitScores :=
  let s := normalizeField scores "skill_match_score"
  let e := normalizeField scores "experience_relevance_score"
  let ed := normalizeField scores "education_alignment_score"
  let ov := normalizeField scores "overall_fit_score"
  let reasoning :=
    match lookupField scores "reasoning" with
    | none => Json.str "Score calculation incomplete"
    | some r => r
  let ov2 := if ov = 0 ∨ ov > 100 then (4/10 : ℚ) * s + (4/10 : ℚ) * e + (2/10 : ℚ) * ed else ov
  ⟨s, e, ed, ov2, reasoning⟩

/-- calculate_fit_score: short-circuit to the fixed minimal score when both
skills and experience are empty (lines 571-580, before any service call);
otherwise run the retry loop and dispatch on how it exited (the three
handlers at lines 647, 678, 688).  The second component counts
generate_content invocations. -/
def calculate_fit_score (parsed_resume : CombinedInfo) (attempts : List FitAttempt) :
    FitScores × ℕ :=
  if parsed_resume.skills = [] ∧ parsed_resume.experience = [] then
    (⟨5, 5, 5, 5, .str "Resume parsing failed or insufficient information provided"⟩, 0)
  else
    match fitRetryFrom attempts 0 with
    | (.scoresOk scores, calls, _) => (normalizeScores scores, calls)
    | (.jsonDecodeError jm, calls, _) =>
      (⟨15, 15, 15, 15, .str ("Score parsing failed: " ++ jm)⟩, calls)
    | (.otherError m, calls, _) =>
      (⟨10, 10, 10, 10, .str ("Score calculation error: " ++ m)⟩, calls)

/-! ### generate_job_details result shape (job_role_agent.py lines 91-217)

The whole body sits in `try ... except Exception` (line 211) whose handler
returns a two-key dict `status`/`error`; the success path returns the parsed
four-key job-details dict.  The try body (API-key check, retry loop, json
parsing, validation, unstructured fallback) is summarised by a `body`
parameter carrying either the validated details or str(e) for the exception
reaching line 211. -/

/-- JobDetails is the validated success dictionary. -/
structure JobDetails where
  description : String
  responsibilities : List String
  required_skills : List String
  qualifications : List String
deriving DecidableEq, Repr

/-- JobGenResult distinguishes the two dictionaries the function can return. -/
inductive JobGenResult
  | ok (details : JobDetails)
  | errorDict (status : String) (error : String)
deriving DecidableEq, Repr

/-- dictKeys lists the keys of the returned mapping, in source order. -/
def JobGenResult.dictKeys : JobGenResult → List String
  | .ok _ => ["description", "responsibilities", "required_skills", "qualifications"]
  | .errorDict _ _ => ["status", "error"]

/-- generate_job_details: the except handler at lines 211-217. -/
def generate_job_details (body : Except String JobDetails) : JobGenResult :=
  match body with
  | .ok d => .ok d
  | .error e => .errorDict "error" ("Error generating job details: " ++ e)

/-! ### difflib.SequenceMatcher(None, a, b).ratio()

Modelled from the published stdlib algorithm, which _merge_chunk_data
(resume_parser_agent.py line 462) calls with isjunk=None: b2j maps each
element of b to its ascending occurrence indices; find_longest_match runs
the j2len dynamic program over the rows of a and then widens the best block
by the two equal-element extension loops (the junk-extension loops are
no-ops since the bjunk set is empty when isjunk is None; the autojunk
purge of popular entries, active only for len(b) >= 200, is not modelled —
it never changes the identical-string ratio because the extension loops
rebuild the full diagonal match).  The ratio is 2*M/T with M the total size
of the recursively collected matching blocks, and 1 when T = 0. -/

/-- b2jList gives the ascending occurrence indices of c in b. -/
def b2jList (b : List Char) (c : Char) : List ℕ :=
  (List.range b.length).filter (fun j => decide (b.get? j = some c))

/-- MatchBest is the (besti, bestj, bestsize) triple of find_longest_match. -/
structure MatchBest where
  besti : ℕ
  bestj : ℕ
  bestsize : ℕ
deriving DecidableEq, Repr

/-- rowMapChar is the chain value `k = j2len.get(j-1, 0) + 1` the dynamic
program computes at a bucket index j from the previous row's dict (the
absent key -1 reads as 0 when j = 0). -/
def rowMapChar (j2len : ℕ → ℕ) (j : ℕ) : ℕ :=
  (if j = 0 then 0 else j2len (j - 1)) + 1

/-- rowStep processes one j of the current row: the new dict gains j ↦ k,
and the best block is replaced when k is strictly larger. -/
def rowStep (j2len : ℕ → ℕ) (i : ℕ) (acc : (ℕ → ℕ) × MatchBest) (j : ℕ) :
    (ℕ → ℕ) × MatchBest :=
  let k := rowMapChar j2len j
  let nj : ℕ → ℕ := fun x => if x = j then k else acc.1 x
  let nb := if k > acc.2.bestsize then ⟨i + 1 - k, j + 1 - k, k⟩ else acc.2
  (nj, nb)

/-- dpRow folds one row of the dynamic program; the new dict starts empty. -/
def dpRow (j2len : ℕ → ℕ) (best : MatchBest) (i : ℕ) (js : List ℕ) :
    (ℕ → ℕ) × MatchBest :=
  js.foldl (rowStep j2len i) (fun _ => 0, best)

/-- rowIndices is `b2j.get(a[i], [])` restricted to blo ≤ j < bhi, matching
the continue/break guards of the source loop. -/
def rowIndices (a b : List Char) (blo bhi i : ℕ) : List ℕ :=
  (b2jList b (a.getD i (Char.ofNat 0))).filter (fun j => decide (blo ≤ j ∧ j < bhi))

/-- dpRowsStep hands the dict and best of the running state to one row. -/
def dpRowsStep (a b : List Char) (blo bhi : ℕ)
    (acc : (ℕ → ℕ) × MatchBest) (i : ℕ) : (ℕ → ℕ) × MatchBest :=
  dpRow acc.1 acc.2 i (rowIndices a b blo bhi i)

/-- dpRows runs the dynamic program over rows alo..ahi-1, starting from an
empty dict and the zero block at (alo, blo). -/
def dpRows (a b : List Char) (alo ahi blo bhi : ℕ) : MatchBest :=
  ((List.range' alo (ahi - alo)).foldl (dpRowsStep a b blo bhi)
    (fun _ => 0, ⟨alo, blo, 0⟩)).2

/-- extLeftGo widens the block leftwards while the adjacent elements are
equal (the not-junk guard is vacuous with isjunk=None); the fuel argument is
besti itself, which bounds the loop, making the recursion structural. -/
def extLeftGo (a b : List Char) (alo blo : ℕ) : ℕ → ℕ → ℕ → ℕ → ℕ × ℕ × ℕ
  | 0, besti, bestj, bestsize => (besti, bestj, bestsize)
  | fuel + 1, besti, bestj, bestsize =>
    if alo < besti ∧ blo < bestj ∧
        a.get? (besti - 1) = b.get? (bestj - 1) ∧ (a.get? (besti - 1)).isSome then
      extLeftGo a b alo blo fuel (besti - 1) (bestj - 1) (bestsize + 1)
    else (besti, bestj, bestsize)

/-- extLeft enters the leftward extension loop. -/
def extLeft (a b : List Char) (alo blo : ℕ) (besti bestj bestsize : ℕ) :
    ℕ × ℕ × ℕ :=
  extLeftGo a b alo blo besti besti bestj bestsize

/-- extRightGo widens the block rightwards while the adjacent elements are
equal; the fuel is ahi - (besti + bestsize), the loop's measure. -/
def extRightGo (a b : List Char) (ahi bhi besti bestj : ℕ) : ℕ → ℕ → ℕ
  | 0, bestsize => bestsize
  | fuel + 1, bestsize =>
    if besti + bestsize < ahi ∧ bestj + bestsize < bhi ∧
        a.get? (besti + bestsize) = b.get? (bestj + bestsize) ∧
        (a.get? (besti + bestsize)).isSome then
      extRightGo a b ahi bhi besti bestj fuel (bestsize + 1)
    else bestsize

/-- extRight enters the rightward extension loop. -/
def extRight (a b : List Char) (ahi bhi : ℕ) (besti bestj bestsize : ℕ) : ℕ :=
  extRightGo a b ahi bhi besti bestj (ahi - (besti + bestsize)) bestsize

/-- find_longest_match: dynamic program, then the two extension loops. -/
def find_longest_match (a b : List Char) (alo ahi blo bhi : ℕ) : MatchBest :=
  let d := dpRows a b alo ahi blo bhi
  let l := extLeft a b alo blo d.besti d.bestj d.bestsize
  let size := extRight a b ahi bhi l.1 l.2.1 l.2.2
  ⟨l.1, l.2.1, size⟩

/-- matchingTotal sums the sizes of the matching blocks collected by the
recursive decomposition of get_matching_blocks; fuel bounds the recursion
depth (any fuel above the region size is enough). -/
def matchingTotal (a b : List Char) : ℕ → ℕ → ℕ → ℕ → ℕ → ℕ
  | 0, _, _, _, _ => 0
  | fuel + 1, alo, ahi, blo, bhi =>
    let m := find_longest_match a b alo ahi blo bhi
    if m.bestsize = 0 then 0
    else
      matchingTotal a b fuel alo m.besti blo m.bestj + m.bestsize +
        matchingTotal a b fuel (m.besti + m.bestsize) ahi (m.bestj + m.bestsize) bhi

/-- similarity is SequenceMatcher(None, a, b).ratio() as an exact rational. -/
def similarity (a b : List Char) : ℚ :=
  let total := a.length + b.length
  if total = 0 then 1
  else 2 * (matchingTotal a b (a.length + b.length + 1) 0 a.length 0 b.length : ℚ) / total

/-! ### _merge_chunk_data (resume_parser_agent.py lines 450-468)

The loop compares each candidate, lowercased, against every element already
in the (growing) list and appends only when no comparison exceeds 0.8.
Items are modelled by their comparable string form (`json.dumps(item)` for
dict entries, the string itself otherwise); the dumps form of an item is a
fixed string, so list-of-strings is faithful for the merge behavior. -/

/-- lowerChars models `new_str.lower()` viewed as a character list. -/
def lowerChars (s : String) : List Char :=
  s.toList.map Char.toLower

/-- similarOver08 is the loop's `similarity > 0.8` test against one element. -/
def similarOver08 (new_item existing_item : String) : Bool :=
  decide (similarity (lowerChars new_item) (lowerChars existing_item) > 4/5)

/-- mergeItem is the body of the outer for-loop for one candidate. -/
def mergeItem (existing_items : List String) (new_item : String) : List String :=
  if existing_items.any (fun e => similarOver08 new_item e) then existing_items
  else existing_items ++ [new_item]

/-- merge_chunk_data folds all candidates of a chunk into the accumulator
list, each one seeing the items appended before it. -/
def merge_chunk_data (existing_items new_items : List String) : List String :=
  new_items.foldl mergeItem existing_items

/-! ### langchain RecursiveCharacterTextSplitter

parse_resume builds the splitter with chunk_size=1000, chunk_overlap=100
(resume_parser_agent.py lines 80-83) and calls split_text (line 213).
Modelled from langchain's published splitter: separator list
["\n\n", "\n", " ", ""], keep_separator (separators reattached to the
following fragment, merging joins with ""), length = len, and
strip_whitespace (each emitted chunk is stripped).  Text is a character
list. -/

/-- chunk_size configured at resume_parser_agent.py line 81. -/
def chunk_size : ℕ := 1000

/-- chunk_overlap configured at resume_parser_agent.py line 82. -/
def chunk_overlap : ℕ := 100

/-- default_separators is the splitter's separator cascade. -/
def default_separators : List (List Char) :=
  [['\n', '\n'], ['\n'], [Char.ofNat 32], []]

/-- startsWithSeq pat l: l begins with pat. -/
def startsWithSeq : List Char → List Char → Bool
  | [], _ => true
  | _ :: _, [] => false
  | c :: cs, d :: ds => c == d && startsWithSeq cs ds

/-- containsSeq pat l models `re.search(re.escape(pat), text)`. -/
def containsSeq (pat : List Char) : List Char → Bool
  | [] => startsWithSeq pat []
  | c :: rest => startsWithSeq pat (c :: rest) || containsSeq pat rest

/-- findSeq pat l finds the leftmost occurrence of a nonempty pat, returning
the text before it and the text after it. -/
def findSeq (pat : List Char) : List Char → Option (List Char × List Char)
  | [] => none
  | c :: rest =>
    if startsWithSeq pat (c :: rest) then some ([], (c :: rest).drop pat.length)
    else
      match findSeq pat rest with
      | none => none
      | some pr => some (c :: pr.1, pr.2)

/-- splitAtSeq splits at every occurrence of a nonempty separator (fuel is
any bound on the number of occurrences; text length suffices). -/
def splitAtSeq (pat : List Char) : ℕ → List Char → List (List Char)
  | 0, text => [text]
  | fuel + 1, text =>
    match findSeq pat text with
    | none => [text]
    | some pr => pr.1 :: splitAtSeq pat fuel pr.2

/-- splitWithSep models _split_text_with_regex with keep_separator: the empty
separator yields the character list; otherwise each separator occurrence is
glued onto the fragment after it, and empty fragments are dropped. -/
def splitWithSep (sep : List Char) (text : List Char) : List (List Char) :=
  if sep = [] then (text.map (fun c => [c])).filter (fun s => decide (s ≠ []))
  else
    match splitAtSeq sep text.length text with
    | [] => []
    | p :: ps => (p :: ps.map (fun x => sep ++ x)).filter (fun s => decide (s ≠ []))

/-- pyStrip models Python str.strip(): drop whitespace at both ends. -/
def pyStrip (cs : List Char) : List Char :=
  ((cs.dropWhile Char.isWhitespace).reverse.dropWhile Char.isWhitespace).reverse

/-- joinWithSep models `separator.join(docs)`. -/
def joinWithSep (sep : List Char) : List (List Char) → List Char
  | [] => []
  | d :: ds => ds.foldl (fun acc x => acc ++ sep ++ x) d

/-- join_docs joins, strips, and reports None for an empty result. -/
def join_docs (sep : List Char) (docs : List (List Char)) : Option (List Char) :=
  let t := pyStrip (joinWithSep sep docs)
  if t = [] then none else some t

/-- popWhile is the inner while-loop of _merge_splits: shrink the carried
window from the front while the running total exceeds the overlap (or the
incoming fragment still does not fit).  In every reachable state the total
is the exact length sum, so ℕ subtraction is exact. -/
def popWhile (sepLen overlap csize dlen : ℕ) :
    List (List Char) → ℕ → List (List Char) × ℕ
  | [], total => ([], total)
  | c :: cs, total =>
    if total > overlap ∨ (total + dlen + sepLen > csize ∧ total > 0) then
      popWhile sepLen overlap csize dlen cs
        (total - (c.length + if cs.length > 0 then sepLen else 0))
    else (c :: cs, total)

/-- MergeState carries the emitted docs, the fragment window, and the running
total length of the window (with separators). -/
structure MergeState where
  docs : List (List Char)
  current : List (List Char)
  total : ℕ
deriving DecidableEq, Repr

/-- mergeStep is the body of the for-loop of _merge_splits for one incoming
fragment d: when d would overflow the chunk, emit the joined window and
shrink it for overlap; then append d and update the total. -/
def mergeStep (sepLen csize overlap : ℕ) (sep : List Char)
    (st : MergeState) (d : List Char) : MergeState :=
  let dlen := d.length
  let st1 :=
    if st.total + dlen + (if st.current.length > 0 then sepLen else 0) > csize then
      if st.current.length > 0 then
        let docs1 :=
          match join_docs sep st.current with
          | none => st.docs
          | some doc => st.docs ++ [doc]
        let popped := popWhile sepLen overlap csize dlen st.current st.total
        ⟨docs1, popped.1, popped.2⟩
      else st
    else st
  ⟨st1.docs, st1.current ++ [d],
    st1.total + dlen + (if st1.current.length > 0 then sepLen else 0)⟩

/-- mergeFinish emits the final window after the loop, as the trailing
join in _merge_splits. -/
def mergeFinish (sep : List Char) (st : MergeState) : List (List Char) :=
  match join_docs sep st.current with
  | none => st.docs
  | some doc => st.docs ++ [doc]

/-- merge_splits models _merge_splits with the configured sizes. -/
def merge_splits (sep : List Char) (splits : List (List Char)) : List (List Char) :=
  mergeFinish sep
    (splits.foldl (mergeStep sep.length chunk_size chunk_overlap sep) ⟨[], [], 0⟩)

/-- chooseSep picks the first separator occurring in the text ("" always
matches and keeps new_separators empty), returning it with the remaining
cascade, as in _split_text's selection loop. -/
def chooseSep (text : List Char) : List (List Char) → List Char × List (List Char)
  | [] => ([], [])
  | s :: rest =>
    if s = [] then ([], [])
    else if containsSeq s text then (s, rest)
    else chooseSep text rest

/-- splitFoldStep is the body of _split_text's loop over the fragments:
small fragments gather in the _good_splits buffer; an oversized fragment
first flushes the buffer through _merge_splits (joining with "" because
keep_separator is set) and is then either kept whole (no separators left)
or split recursively. -/
def splitFoldStep (recurse : List Char → List (List Char))
    (new_separators : List (List Char))
    (acc : List (List Char) × List (List Char)) (s : List Char) :
    List (List Char) × List (List Char) :=
  if s.length < chunk_size then (acc.1, acc.2 ++ [s])
  else
    let flushed := if acc.2 ≠ [] then acc.1 ++ merge_splits [] acc.2 else acc.1
    if new_separators = [] then (flushed ++ [s], [])
    else (flushed ++ recurse s, [])

/-- split_text_rec is _split_text: split at the chosen separator, fold the
fragments, and flush the remaining buffer; fuel bounds the recursion depth
by the separator-cascade length. -/
def split_text_rec : ℕ → List Char → List (List Char) → List (List Char)
  | 0, text, _ => [text]
  | fuel + 1, text, separators =>
    let chosen := chooseSep text separators
    let splits := splitWithSep chosen.1 text
    let folded := splits.foldl
      (splitFoldStep (fun s => split_text_rec fuel s chosen.2) chosen.2) ([], [])
    if folded.2 ≠ [] then folded.1 ++ merge_splits [] folded.2 else folded.1

/-- split_text is the splitter entry point with the default cascade. -/
def split_text (text : List Char) : List (List Char) :=
  split_text_rec (default_separators.length + 1) text default_separators

/-- stripSome is what emitting one window contributes: the stripped window,
or nothing when it strips to empty (the None case of join_docs). -/
def stripSome (w : List Char) : Option (List Char) :=
  if pyStrip w = [] then none else some (pyStrip w)

/-- slidingChunks is the closed form of the merge loop on character-sized
fragments: windows of chunk_size characters advancing by chunk_size -
chunk_overlap, the last window taking whatever remains. -/
def slidingChunks (cs : List Char) : List (List Char) :=
  if _h : cs.length ≤ chunk_size then [cs]
  else cs.take chunk_size :: slidingChunks (cs.drop (chunk_size - chunk_overlap))
termination_by cs.length
decreasing_by
  simp only [List.length_drop, chunk_size, chunk_overlap] at *
  omega

/-- c1Trace is a realizable sequence of three acquire() calls, observed at
clock values 0, 1 and 2 seconds with jitter 1 each. -/
def c1Trace : List (ℚ × ℚ) := [(0, 1), (1, 1), (2, 1)]

/-- c7SpacedText is a 2500-character input containing one space: 500 letters,
a space, then 1999 letters. -/
def c7SpacedText : List Char :=
  List.replicate 500 'a' ++ Char.ofNat 32 :: List.replicate 1999 'a' 

/-! ## Theorems -/

/-- C1: after the three calls of c1Trace — a trace the single-threaded source
can produce, since the first two calls sleep 0 — the recorded timestamp list
is [0, 1, 2]: three timestamps inside the single 60-second window starting
at 0, although max_requests is 2.  The third call sleeps, but then appends
the pre-sleep clock value, so the recorded sequence violates the claimed
sliding-window bound at the moment of the append. -/
theorem rate_limiter_overadmits :
    validTraceFrom ⟨2, 60, []⟩ 0 c1Trace = true ∧
    (runAcquires ⟨2, 60, []⟩ c1Trace).1.requests = [0, 1, 2] ∧
    countInWindow (runAcquires ⟨2, 60, []⟩ c1Trace).1.requests 0 60 = 3 ∧
    2 < countInWindow (runAcquires ⟨2, 60, []⟩ c1Trace).1.requests 0 60 := by
  norm_num [c1Trace, validTraceFrom, runAcquires, wait_if_needed, listMin,
    countInWindow, List.filter]

/-- C2 counterexample: when the first two attempts fail with a "429" signal
and the third fails with an unrelated error ("boom"), the wrapper does not
propagate that failure unchanged: it raises the retries-exhausted error. -/
theorem retry_final_error_not_propagated :
    generate_with_retries [.exn "429 quota exceeded", .exn "429 quota exceeded", .exn "boom"]
      = (.exhausted 3, [35, 35]) ∧
    (generate_with_retries
        [.exn "429 quota exceeded", .exn "429 quota exceeded", .exn "boom"]).1
      ≠ .raised "boom" := by
  decide

/-- C2 amended: on a "429" failure before the final attempt the wrapper
sleeps 35 seconds and retries; a non-"429" failure before the final attempt
propagates immediately and unchanged; and any failure on the third attempt
(whether "429" or not) raises the retries-exhausted error carrying the
attempt count 3.  Success with nonempty text returns it at any attempt. -/
theorem retry_wrapper_behavior :
    (∀ (outcomes : List Outcome) (rc : ℕ) (t : String), rc < max_retries →
      outcomes.getD rc (.exn "no attempt") = .ok t → t ≠ "" →
      retryFrom outcomes rc = (.success t, [])) ∧
    (∀ (outcomes : List Outcome) (rc : ℕ) (o : Outcome), rc + 1 < max_retries →
      outcomes.getD rc (.exn "no attempt") = o → attemptFails o = true →
      contains429 (msgOf o).toList = false →
      retryFrom outcomes rc = (.raised (msgOf o), [])) ∧
    (∀ (outcomes : List Outcome) (rc : ℕ) (o : Outcome), rc + 1 < max_retries →
      outcomes.getD rc (.exn "no attempt") = o → attemptFails o = true →
      contains429 (msgOf o).toList = true →
      retryFrom outcomes rc
        = ((retryFrom outcomes (rc + 1)).1, 35 :: (retryFrom outcomes (rc + 1)).2)) ∧
    (∀ (outcomes : List Outcome) (o : Outcome),
      outcomes.getD 2 (.exn "no attempt") = o → attemptFails o = true →
      retryFrom outcomes 2 = (.exhausted 3, [])) := by
  refine ⟨?_, ?_, ?_, ?_⟩
  · intro outcomes rc t hrc hget ht
    simp only [List.getD_eq_getElem?_getD] at hget
    have hrc3 : rc = 0 ∨ rc = 1 ∨ rc = 2 := by
      simp only [max_retries] at hrc; omega
    rcases hrc3 with h | h | h <;> subst h <;>
      simp [retryFrom, retryGo, max_retries, hget, ht]
  · intro outcomes rc o hrc hget ho h429
    simp only [List.getD_eq_getElem?_getD] at hget
    have hrc2 : rc = 0 ∨ rc = 1 := by
      simp only [max_retries] at hrc; omega
    rcases o with t | m
    · have ht : t = "" := by simpa [attemptFails] using ho
      subst ht
      rcases hrc2 with h | h <;> subst h <;>
        simp [retryFrom, retryGo, max_retries, hget, msgOf] at h429 ⊢ <;>
        simp [h429]
    · rcases hrc2 with h | h <;> subst h <;>
        simp [retryFrom, retryGo, max_retries, hget, msgOf] at h429 ⊢ <;>
        simp [h429]
  · intro outcomes rc o hrc hget ho h429
    simp only [List.getD_eq_getElem?_getD] at hget
    have hrc2 : rc = 0 ∨ rc = 1 := by
      simp only [max_retries] at hrc; omega
    rcases o with t | m
    · have ht : t = "" := by simpa [attemptFails] using ho
      subst ht
      rcases hrc2 with h | h <;> subst h <;>
        simp [retryFrom, retryGo, max_retries, hget, msgOf] at h429 ⊢ <;>
        simp [h429]
    · rcases hrc2 with h | h <;> subst h <;>
        simp [retryFrom, retryGo, max_retries, hget, msgOf] at h429 ⊢ <;>
        simp [h429]
  · intro outcomes o hget ho
    simp only [List.getD_eq_getElem?_getD] at hget
    rcases o with t | m
    · have ht : t = "" := by simpa [attemptFails] using ho
      subst ht
      simp [retryFrom, retryGo, max_retries, hget]
    · simp [retryFrom, retryGo, max_retries, hget]

/-- C2 witness: the amended theorem applied at concrete inputs — a "429"
failure at the first attempt sleeps and retries, and a plain failure at the
third attempt raises the retries-exhausted error. -/
theorem retry_wrapper_behavior_witness :
    retryFrom [Outcome.exn "err 429", .exn "y", .exn "boom"] 0
      = ((retryFrom [Outcome.exn "err 429", .exn "y", .exn "boom"] 1).1,
          35 :: (retryFrom [Outcome.exn "err 429", .exn "y", .exn "boom"] 1).2) ∧
    retryFrom [Outcome.exn "x", .exn "y", .exn "boom"] 2 = (.exhausted 3, []) :=
  ⟨retry_wrapper_behavior.2.2.1 [Outcome.exn "err 429", .exn "y", .exn "boom"] 0
      (.exn "err 429") (by decide) rfl rfl (by decide),
   retry_wrapper_behavior.2.2.2 [Outcome.exn "x", .exn "y", .exn "boom"]
      (.exn "boom") rfl rfl⟩

/-- C4: parse_resume fails with ValueError exactly on blank input; for every
non-blank input it returns normally, and when the parsing body raises, the
returned mapping has all four lists empty and carries the error text in
parsing_error. -/
theorem parse_resume_raises_iff_blank :
    ∀ (t : String) (body : Except String CombinedInfo),
      ((∃ msg, parse_resume t body = .error msg) ↔ isBlankText t = true) ∧
      (isBlankText t = false → ∀ m, body = .error m →
        parse_resume t body = .ok ⟨emptyCombined, some m⟩) := by
  intro t body
  refine ⟨⟨fun h => ?_, fun h => ?_⟩, fun hb m hm => ?_⟩
  · by_contra hb
    have hb' : isBlankText t = false := by simpa using hb
    obtain ⟨msg, hmsg⟩ := h
    cases body <;> simp [parse_resume, hb'] at hmsg
  · exact ⟨"Resume text is empty or invalid", by simp [parse_resume, h]⟩
  · subst hm
    simp [parse_resume, hb]

/-- C4 witness: the theorem applied to the non-blank text "abc" with a
failing body, and to the all-whitespace text, which is rejected. -/
theorem parse_resume_raises_iff_blank_witness :
    parse_resume "abc" (.error "boom") = .ok ⟨emptyCombined, some "boom"⟩ ∧
    (∃ msg, parse_resume "  " (.ok emptyCombined) = .error msg) :=
  ⟨(parse_resume_raises_iff_blank "abc" (.error "boom")).2 (by decide) "boom" rfl,
   (parse_resume_raises_iff_blank "  " (.ok emptyCombined)).1.mpr (by decide)⟩

/-- C5: finalizing the all-empty accumulator yields exactly one placeholder
entry per section, and no finalized accumulator ever has an empty section. -/
theorem finalize_fills_all_sections :
    finalizeInfo emptyCombined =
      ⟨[⟨"Not Specified", "Not Specified", "Not Specified"⟩],
        ["General Skills"],
        [⟨"Not Specified", "Not Specified", "Not Specified", ["Not Specified"]⟩],
        [⟨"Not Specified", "Not Specified", ["Not Specified"]⟩]⟩ ∧
    ∀ c : CombinedInfo,
      (finalizeInfo c).education ≠ [] ∧ (finalizeInfo c).skills ≠ [] ∧
      (finalizeInfo c).experience ≠ [] ∧ (finalizeInfo c).projects ≠ [] := by
  refine ⟨rfl, fun c => ⟨?_, ?_, ?_, ?_⟩⟩ <;>
    simp only [finalizeInfo, is_valid_result] <;> split <;> simp_all

/-- C6: with both skills and experience empty, calculate_fit_score returns
the fixed minimal mapping with 5.0 in all four numeric fields and performs
zero generate_content calls. -/
theorem fit_score_short_circuit :
    ∀ (parsed : CombinedInfo) (attempts : List FitAttempt),
      parsed.skills = [] → parsed.experience = [] →
      calculate_fit_score parsed attempts =
        (⟨5, 5, 5, 5, .str "Resume parsing failed or insufficient information provided"⟩, 0) := by
  intro parsed attempts hs he
  simp [calculate_fit_score, hs, he]

/-- C6 witness: the theorem applied to the empty accumulator. -/
theorem fit_score_short_circuit_witness :
    calculate_fit_score emptyCombined [] =
      (⟨5, 5, 5, 5, .str "Resume parsing failed or insufficient information provided"⟩, 0) :=
  fit_score_short_circuit emptyCombined [] rfl rfl

/-- C9 counterexample: a totally failed job-detail generation returns the
two-key status/error dictionary; the primary key "description" (and hence
the success shape) is absent, contrary to the claimed same-keys-but-empty
failure mapping. -/
theorem job_details_failure_lacks_primary_keys :
    (generate_job_details (.error "Failed to get response after 3 retries")).dictKeys
      = ["status", "error"] ∧
    "description" ∉
      (generate_job_details (.error "Failed to get response after 3 retries")).dictKeys := by
  decide

/-- C9 amended: on total failure the resume parser returns the four primary
keys with empty lists plus parsing_error, but the job-detail generator
instead returns only a status/error dictionary without the primary keys. -/
theorem failure_shapes_amended :
    (∀ m, generate_job_details (.error m)
        = .errorDict "error" ("Error generating job details: " ++ m) ∧
      (generate_job_details (.error m)).dictKeys = ["status", "error"]) ∧
    (∀ (t m : String), isBlankText t = false →
      parse_resume t (.error m) = .ok ⟨emptyCombined, some m⟩) := by
  refine ⟨fun m => ⟨rfl, rfl⟩, fun t m hb => ?_⟩
  simp [parse_resume, hb]

/-- C9 witness: the amended theorem applied at concrete failing calls. -/
theorem failure_shapes_amended_witness :
    parse_resume "abc" (.error "zap") = .ok ⟨emptyCombined, some "zap"⟩ ∧
    generate_job_details (.error "zap")
      = .errorDict "error" ("Error generating job details: " ++ "zap") :=
  ⟨failure_shapes_amended.2 "abc" "zap" (by decide),
   (failure_shapes_amended.1 "zap").1⟩

/-- C3 counterexample: "abcdx" against existing "abcde" has similarity ratio
exactly 0.8, and the merge step appends it rather than discarding it — the
source compares with strict `> 0.8`, so a candidate at exactly 0.8 is kept,
contradicting the claimed discard at ratio ≥ 0.8. -/
theorem merge_keeps_similarity_exactly_point8 :
    similarity (lowerChars "abcdx") (lowerChars "abcde") = 4/5 ∧
    merge_chunk_data ["abcde"] ["abcdx"] = ["abcde", "abcdx"] ∧
    merge_chunk_data ["abcde"] ["abcdx"] ≠ ["abcde"] := by
  have h1 : matchingTotal (lowerChars "abcdx") (lowerChars "abcde") 11 0 5 0 5 = 4 := by
    decide
  have h2 : (lowerChars "abcdx").length = 5 := by decide
  have h3 : (lowerChars "abcde").length = 5 := by decide
  have hsim : similarity (lowerChars "abcdx") (lowerChars "abcde") = 4/5 := by
    simp only [similarity, h2, h3]
    norm_num [h1]
  have hover : similarOver08 "abcdx" "abcde" = false := by
    simp only [similarOver08, hsim]
    norm_num
  refine ⟨hsim, ?_, ?_⟩ <;> simp [merge_chunk_data, mergeItem, hover]

/-- C3 amended: folding a chunk processes candidates left to right against
the evolving accumulator, and one candidate is discarded exactly when its
lowercased form has similarity ratio strictly greater than 0.8 against some
element already in the list; otherwise it is appended (so a candidate at
ratio exactly 0.8 is kept). -/
theorem merge_discards_iff_strictly_above_point8 :
    (∀ (existing_items : List String) (new_item : String) (rest : List String),
      merge_chunk_data existing_items (new_item :: rest)
        = merge_chunk_data (mergeItem existing_items new_item) rest) ∧
    (∀ (existing_items : List String) (new_item : String),
      (mergeItem existing_items new_item = existing_items ↔
        ∃ e ∈ existing_items,
          similarity (lowerChars new_item) (lowerChars e) > 4/5) ∧
      (mergeItem existing_items new_item = existing_items ++ [new_item] ↔
        ¬ ∃ e ∈ existing_items,
          similarity (lowerChars new_item) (lowerChars e) > 4/5)) := by
  refine ⟨fun E n rest => rfl, fun E n => ?_⟩
  have hne : E ++ [n] ≠ E := by
    intro h
    have := congrArg List.length h
    simp at this
  have hany : (E.any (fun e => similarOver08 n e) = true) ↔
      ∃ e ∈ E, similarity (lowerChars n) (lowerChars e) > 4/5 := by
    simp [List.any_eq_true, similarOver08]
  by_cases h : E.any (fun e => similarOver08 n e) = true
  · have hx := hany.mp h
    constructor
    · simp [mergeItem, h, hx]
    · simp only [mergeItem, if_pos h]
      constructor
      · intro heq
        exact absurd heq.symm hne
      · intro hn
        exact absurd hx hn
  · have hx : ¬ ∃ e ∈ E, similarity (lowerChars n) (lowerChars e) > 4/5 :=
      fun hc => h (hany.mpr hc)
    constructor
    · simp only [mergeItem, if_neg h]
      constructor
      · intro heq
        exact absurd heq hne
      · intro hc
        exact absurd hc hx
    · simp [mergeItem, h, hx]

/-- dpRow writes rowMapChar at every bucket index and keeps other entries of
the fresh dict at their current value. -/
theorem dpRow_map (j2len : ℕ → ℕ) (i : ℕ) (js : List ℕ)
    (cur : ℕ → ℕ) (best : MatchBest) :
    ∀ x, (js.foldl (rowStep j2len i) (cur, best)).1 x
      = if x ∈ js then rowMapChar j2len x else cur x := by
  induction js generalizing cur best with
  | nil => intro x; simp
  | cons j js ih =>
    intro x
    rw [List.foldl_cons, ih]
    by_cases hx : x ∈ js
    · simp [hx]
    · by_cases hxj : x = j
      · subst hxj
        simp [hx, rowStep, rowMapChar]
      · simp [hx, hxj, rowStep]

/-- dpRow leaves the best block alone when no bucket index can beat it. -/
theorem dpRow_best_no_update (j2len : ℕ → ℕ) (i : ℕ) (js : List ℕ)
    (cur : ℕ → ℕ) (best : MatchBest)
    (h : ∀ j ∈ js, rowMapChar j2len j ≤ best.bestsize) :
    (js.foldl (rowStep j2len i) (cur, best)).2 = best := by
  induction js generalizing cur with
  | nil => rfl
  | cons j js ih =>
    rw [List.foldl_cons]
    have hj := h j (List.mem_cons_self j js)
    have hstep : rowStep j2len i (cur, best) j
        = ((fun x => if x = j then rowMapChar j2len j else cur x), best) := by
      simp only [rowStep]
      rw [if_neg (by omega)]
    rw [hstep]
    exact ih _ (fun x hx => h x (List.mem_cons_of_mem j hx))

/-- getD_self_get states that inside bounds, get? returns exactly the getD
value used as the row character. -/
theorem getD_self_get (s : List Char) (i : ℕ) (hi : i < s.length) :
    s.get? i = some (s.getD i (Char.ofNat 0)) := by
  rw [List.get?_eq_getElem?, List.getElem?_eq_getElem hi,
    List.getD_eq_getElem?_getD, List.getElem?_eq_getElem hi]
  rfl

/-- bucket_decompose splits the i-th row's bucket of the self-comparison
around the diagonal occurrence i: indices below i, then i itself, then
indices above i. -/
theorem bucket_decompose (s : List Char) (i : ℕ) (hi : i < s.length) :
    rowIndices s s 0 s.length i
      = (List.range i).filter
          (fun j => decide (s.get? j = some (s.getD i (Char.ofNat 0))))
        ++ i :: (List.range' (i + 1) (s.length - (i + 1))).filter
            (fun j => decide (s.get? j = some (s.getD i (Char.ofNat 0)))) := by
  have hb : rowIndices s s 0 s.length i = b2jList s (s.getD i (Char.ofNat 0)) := by
    unfold rowIndices
    apply List.filter_eq_self.mpr
    intro j hj
    have hj' : j ∈ List.range s.length := (List.mem_filter.mp hj).1
    have := List.mem_range.mp hj'
    simp [this]
  rw [hb]
  unfold b2jList
  have h1 := List.range'_append 0 i (s.length - i) 1
  simp only [Nat.zero_add, Nat.one_mul] at h1
  have hsplit : List.range s.length
      = List.range i ++ i :: List.range' (i + 1) (s.length - (i + 1)) := by
    symm
    calc List.range i ++ i :: List.range' (i + 1) (s.length - (i + 1))
        = List.range' 0 i ++ List.range' i (s.length - i) := by
          rw [List.range_eq_range',
            show s.length - i = (s.length - (i + 1)) + 1 from by omega,
            List.range'_succ]
      _ = List.range' 0 (s.length - i + i) := h1
      _ = List.range s.length := by
          rw [show s.length - i + i = s.length from by omega, List.range_eq_range']
  rw [hsplit, List.filter_append, List.filter_cons,
    if_pos (show (decide (s.get? i = some (s.getD i (Char.ofNat 0)))) = true from by
      simp only [decide_eq_true_eq]
      exact getD_self_get s i hi)]

/-- dpRow_self_step shows one full row of the self-comparison dynamic
program: from a previous-row dict satisfying the diagonal and bound
invariants, the best block moves from (0, 0, i) to (0, 0, i+1) and the new
dict again satisfies the invariants one step further. -/
theorem dpRow_self_step (s : List Char) (i : ℕ) (hi : i < s.length)
    (j2len : ℕ → ℕ)
    (hA : (if i = 0 then 0 else j2len (i - 1)) = i)
    (hB : ∀ x, j2len x ≤ x + 1)
    (hC : ∀ x, j2len x ≤ i) :
    (dpRow j2len ⟨0, 0, i⟩ i (rowIndices s s 0 s.length i)).2 = ⟨0, 0, i + 1⟩ ∧
    (dpRow j2len ⟨0, 0, i⟩ i (rowIndices s s 0 s.length i)).1 i = i + 1 ∧
    (∀ x, (dpRow j2len ⟨0, 0, i⟩ i (rowIndices s s 0 s.length i)).1 x ≤ x + 1) ∧
    (∀ x, (dpRow j2len ⟨0, 0, i⟩ i (rowIndices s s 0 s.length i)).1 x ≤ i + 1) := by
  have hki : rowMapChar j2len i = i + 1 := by
    unfold rowMapChar
    rw [hA]
  have hkx : ∀ x, rowMapChar j2len x ≤ x + 1 := by
    intro x
    unfold rowMapChar
    split
    · omega
    · have := hB (x - 1)
      omega
  have hkc : ∀ x, rowMapChar j2len x ≤ i + 1 := by
    intro x
    unfold rowMapChar
    split
    · omega
    · have := hC (x - 1)
      omega
  unfold dpRow
  rw [bucket_decompose s i hi]
  set p : ℕ → Bool := fun j => decide (s.get? j = some (s.getD i (Char.ofNat 0))) with hp
  set pre := (List.range i).filter p with hpre
  set post := (List.range' (i + 1) (s.length - (i + 1))).filter p with hpost
  have hpre_lt : ∀ j ∈ pre, j < i := by
    intro j hj
    rw [hpre] at hj
    exact List.mem_range.mp (List.mem_filter.mp hj).1
  have hpost_gt : ∀ j ∈ post, i < j := by
    intro j hj
    rw [hpost] at hj
    have := (List.mem_filter.mp hj).1
    obtain ⟨k, _, hk⟩ := List.mem_range'.mp this
    omega
  rw [List.foldl_append]
  have hpre_k : ∀ j ∈ pre, rowMapChar j2len j ≤ (⟨0, 0, i⟩ : MatchBest).bestsize := by
    intro j hj
    have hji := hpre_lt j hj
    show rowMapChar j2len j ≤ i
    unfold rowMapChar
    split
    · omega
    · have := hB (j - 1)
      omega
  obtain ⟨m1, b1, hst1⟩ :
      ∃ m b, List.foldl (rowStep j2len i) (fun _ => 0, ⟨0, 0, i⟩) pre = (m, b) :=
    ⟨_, _, rfl⟩
  have hb1 : b1 = ⟨0, 0, i⟩ := by
    have := dpRow_best_no_update j2len i pre (fun _ => 0) ⟨0, 0, i⟩ hpre_k
    rw [hst1] at this
    exact this
  have hm1 : ∀ x, m1 x = if x ∈ pre then rowMapChar j2len x else 0 := by
    intro x
    have := dpRow_map j2len i pre (fun _ => 0) ⟨0, 0, i⟩ x
    rw [hst1] at this
    exact this
  rw [hst1, List.foldl_cons]
  have hstepi : rowStep j2len i (m1, b1) i
      = (fun x => if x = i then rowMapChar j2len i else m1 x, ⟨0, 0, i + 1⟩) := by
    simp only [rowStep, hb1]
    rw [if_pos (by rw [hki]; omega)]
    congr 1
    rw [hki]
    congr 1 <;> omega
  rw [hstepi]
  have hpost_k : ∀ j ∈ post, rowMapChar j2len j ≤ (⟨0, 0, i + 1⟩ : MatchBest).bestsize :=
    fun j _ => hkc j
  have hbest2 := dpRow_best_no_update j2len i post
    (fun x => if x = i then rowMapChar j2len i else m1 x) ⟨0, 0, i + 1⟩ hpost_k
  have hmap2 := dpRow_map j2len i post
    (fun x => if x = i then rowMapChar j2len i else m1 x) ⟨0, 0, i + 1⟩
  have hinotpost : i ∉ post := fun h => absurd (hpost_gt i h) (lt_irrefl i)
  refine ⟨hbest2, ?_, ?_, ?_⟩
  · rw [hmap2 i, if_neg hinotpost, if_pos rfl, hki]
  · intro x
    rw [hmap2 x]
    by_cases hxpost : x ∈ post
    · rw [if_pos hxpost]
      exact hkx x
    · rw [if_neg hxpost]
      by_cases hxi : x = i
      · subst hxi
        rw [if_pos rfl, hki]
      · rw [if_neg hxi, hm1 x]
        split
        · exact hkx x
        · omega
  · intro x
    rw [hmap2 x]
    by_cases hxpost : x ∈ post
    · rw [if_pos hxpost]
      exact hkc x
    · rw [if_neg hxpost]
      by_cases hxi : x = i
      · subst hxi
        rw [if_pos rfl, hki]
      · rw [if_neg hxi, hm1 x]
        split
        · exact hkc x
        · omega

/-- dpRows_go_self carries the row invariant over all remaining rows of the
self-comparison: the final best block covers the whole string. -/
theorem dpRows_go_self (s : List Char) :
    ∀ (rows i : ℕ) (j2len : ℕ → ℕ), i + rows = s.length →
      (if i = 0 then 0 else j2len (i - 1)) = i →
      (∀ x, j2len x ≤ x + 1) → (∀ x, j2len x ≤ i) →
      ((List.range' i rows).foldl (dpRowsStep s s 0 s.length)
        (j2len, ⟨0, 0, i⟩)).2 = ⟨0, 0, s.length⟩ := by
  intro rows
  induction rows with
  | zero =>
    intro i j2len hrows hA hB hC
    simp only [List.range'_zero, List.foldl_nil]
    have : i = s.length := by omega
    rw [this]
  | succ rows ih =>
    intro i j2len hrows hA hB hC
    have hi : i < s.length := by omega
    rw [List.range'_succ, List.foldl_cons]
    obtain ⟨hbest, hdiag, hBnd, hCnd⟩ := dpRow_self_step s i hi j2len hA hB hC
    obtain ⟨m2, b2, hst⟩ :
        ∃ m b, dpRow j2len ⟨0, 0, i⟩ i (rowIndices s s 0 s.length i) = (m, b) :=
      ⟨_, _, rfl⟩
    rw [hst] at hbest hdiag hBnd hCnd
    have hf : dpRowsStep s s 0 s.length (j2len, ⟨0, 0, i⟩) i = (m2, b2) := hst
    rw [hf, show b2 = ⟨0, 0, i + 1⟩ from hbest]
    exact ih (i + 1) m2 (by omega) (by simpa using hdiag) hBnd hCnd

/-- dpRows_self: the dynamic program on a string against itself reports the
full-length block at the origin. -/
theorem dpRows_self (s : List Char) :
    dpRows s s 0 s.length 0 s.length = ⟨0, 0, s.length⟩ := by
  unfold dpRows
  have := dpRows_go_self s s.length 0 (fun _ => 0) (by omega) (by simp)
    (fun x => Nat.zero_le (x + 1)) (fun x => Nat.le_refl 0)
  simpa using this

/-- extLeftGo_stop: the extension loop returns its state when the guard
fails, whatever fuel remains. -/
theorem extLeftGo_stop (a b : List Char) (alo blo fuel besti bestj bestsize : ℕ)
    (h : ¬ (alo < besti ∧ blo < bestj ∧
      a.get? (besti - 1) = b.get? (bestj - 1) ∧ (a.get? (besti - 1)).isSome)) :
    extLeftGo a b alo blo fuel besti bestj bestsize = (besti, bestj, bestsize) := by
  cases fuel with
  | zero => rfl
  | succ fuel =>
    unfold extLeftGo
    rw [if_neg h]

/-- extRightGo_stop: likewise for the rightward loop. -/
theorem extRightGo_stop (a b : List Char) (ahi bhi besti bestj fuel bestsize : ℕ)
    (h : ¬ (besti + bestsize < ahi ∧ bestj + bestsize < bhi ∧
      a.get? (besti + bestsize) = b.get? (bestj + bestsize) ∧
      (a.get? (besti + bestsize)).isSome)) :
    extRightGo a b ahi bhi besti bestj fuel bestsize = bestsize := by
  cases fuel with
  | zero => rfl
  | succ fuel =>
    unfold extRightGo
    rw [if_neg h]

/-- find_longest_match_self: a string against itself matches in full. -/
theorem find_longest_match_self (s : List Char) :
    find_longest_match s s 0 s.length 0 s.length = ⟨0, 0, s.length⟩ := by
  unfold find_longest_match
  rw [dpRows_self]
  have hL : extLeft s s 0 0 0 0 s.length = (0, 0, s.length) := by
    unfold extLeft
    exact extLeftGo_stop s s 0 0 0 0 0 s.length (by omega)
  have hR : extRight s s s.length s.length 0 0 s.length = s.length := by
    unfold extRight
    exact extRightGo_stop s s s.length s.length 0 0 _ s.length (by omega)
  simp only [hL, hR]

/-- find_longest_match_empty: an empty region has no match. -/
theorem find_longest_match_empty (a b : List Char) (alo blo : ℕ) :
    find_longest_match a b alo alo blo blo = ⟨alo, blo, 0⟩ := by
  unfold find_longest_match dpRows
  simp only [Nat.sub_self, List.range'_zero, List.foldl_nil]
  have hL : extLeft a b alo blo alo blo 0 = (alo, blo, 0) := by
    unfold extLeft
    exact extLeftGo_stop a b alo blo alo alo blo 0 (by omega)
  have hR : extRight a b alo blo alo blo 0 = 0 := by
    unfold extRight
    exact extRightGo_stop a b alo blo alo blo _ 0 (by omega)
  simp only [hL, hR]

/-- matchingTotal_empty: an empty region contributes no matches. -/
theorem matchingTotal_empty (a b : List Char) (fuel alo blo : ℕ) :
    matchingTotal a b fuel alo alo blo blo = 0 := by
  cases fuel with
  | zero => rfl
  | succ fuel =>
    unfold matchingTotal
    rw [find_longest_match_empty]
    simp

/-- matchingTotal_self: the self-comparison counts every character. -/
theorem matchingTotal_self (s : List Char) (fuel : ℕ) :
    matchingTotal s s (fuel + 1) 0 s.length 0 s.length = s.length := by
  unfold matchingTotal
  rw [find_longest_match_self]
  by_cases h : s.length = 0
  · simp [h]
  · simp only [h, if_false, Nat.zero_add]
    rw [matchingTotal_empty, matchingTotal_empty]
    omega

/-- similarity_self: SequenceMatcher gives ratio 1 on identical inputs. -/
theorem similarity_self (s : List Char) : similarity s s = 1 := by
  unfold similarity
  by_cases h : s.length + s.length = 0
  · rw [if_pos h]
  · rw [if_neg h, matchingTotal_self]
    have hn : s.length ≠ 0 := by omega
    have hcast : ((s.length + s.length : ℕ) : ℚ) = 2 * (s.length : ℚ) := by
      push_cast
      ring
    rw [hcast, div_self]
    exact mul_ne_zero two_ne_zero (by exact_mod_cast hn)

/-- similarOver08_self: every item is strictly more than 0.8-similar to
itself, so its second copy is always suppressed. -/
theorem similarOver08_self (x : String) : similarOver08 x x = true := by
  unfold similarOver08
  rw [similarity_self]
  norm_num

/-- merge_cons unfolds one candidate of the fold. -/
theorem merge_cons (E : List String) (n : String) (N : List String) :
    merge_chunk_data E (n :: N) = merge_chunk_data (mergeItem E n) N := rfl

/-- merge_mem_mono: merging never removes elements already present. -/
theorem merge_mem_mono :
    ∀ (N E : List String) (x : String), x ∈ E → x ∈ merge_chunk_data E N := by
  intro N
  induction N with
  | nil => intro E x hx; exact hx
  | cons n N ih =>
    intro E x hx
    rw [merge_cons]
    apply ih
    unfold mergeItem
    split
    · exact hx
    · exact List.mem_append_left _ hx

/-- merge_dominated: a candidate list already similar (item by item) to the
accumulator folds in without changing it. -/
theorem merge_dominated :
    ∀ (N E : List String),
      (∀ n ∈ N, ∃ e ∈ E, similarOver08 n e = true) → merge_chunk_data E N = E := by
  intro N
  induction N with
  | nil => intro E _; rfl
  | cons n N ih =>
    intro E h
    rw [merge_cons]
    have hn : mergeItem E n = E := by
      unfold mergeItem
      rw [if_pos]
      obtain ⟨e, he, hsim⟩ := h n (List.mem_cons_self n N)
      exact List.any_eq_true.mpr ⟨e, he, hsim⟩
    rw [hn]
    exact ih E (fun m hm => h m (List.mem_cons_of_mem n hm))

/-- merge_covers: after merging, every candidate has a strictly-similar
representative in the result (its own appended copy, or the element that
suppressed it). -/
theorem merge_covers :
    ∀ (N E : List String) (n : String), n ∈ N →
      ∃ e ∈ merge_chunk_data E N, similarOver08 n e = true := by
  intro N
  induction N with
  | nil => intro E n hn; cases hn
  | cons m N ih =>
    intro E n hn
    rw [merge_cons]
    rcases List.mem_cons.mp hn with hnm | hnN
    · subst hnm
      by_cases h : E.any (fun e => similarOver08 n e) = true
      · obtain ⟨e, he, hsim⟩ := List.any_eq_true.mp h
        refine ⟨e, ?_, hsim⟩
        apply merge_mem_mono
        unfold mergeItem
        rw [if_pos h]
        exact he
      · refine ⟨n, ?_, similarOver08_self n⟩
        apply merge_mem_mono
        unfold mergeItem
        rw [if_neg h]
        exact List.mem_append_right _ (List.mem_singleton_self n)
    · exact ih (mergeItem E m) n hnN

/-- C8: merging a chunk list into an accumulator is idempotent — the second
pass suppresses every candidate, because each one either sees its own first
copy (self-similarity 1 > 0.8) or the element that already suppressed it. -/
theorem merge_idempotent :
    ∀ (existing_items new_items : List String),
      merge_chunk_data (merge_chunk_data existing_items new_items) new_items
        = merge_chunk_data existing_items new_items := by
  intro E N
  exact merge_dominated N (merge_chunk_data E N) (fun n hn => merge_covers N E n hn)

/-- pyStrip_no_ws: stripping is the identity on whitespace-free text. -/
theorem pyStrip_no_ws (l : List Char) (h : ∀ c ∈ l, c.isWhitespace = false) :
    pyStrip l = l := by
  unfold pyStrip
  have h1 : l.dropWhile Char.isWhitespace = l := by
    cases l with
    | nil => rfl
    | cons c l =>
      exact List.dropWhile_cons_of_neg (by simp [h c (List.mem_cons_self c l)])
  rw [h1]
  have h2 : l.reverse.dropWhile Char.isWhitespace = l.reverse := by
    cases hr : l.reverse with
    | nil => rfl
    | cons c r =>
      have hc : c ∈ l := by
        rw [← List.mem_reverse, hr]
        exact List.mem_cons_self c r
      exact List.dropWhile_cons_of_neg (by simp [h c hc])
  rw [h2, List.reverse_reverse]

/-- joinWithSep_nil: joining with the empty separator is concatenation. -/
theorem joinWithSep_nil (ds : List (List Char)) : joinWithSep [] ds = ds.flatten := by
  cases ds with
  | nil => rfl
  | cons d ds =>
    show ds.foldl (fun acc x => acc ++ [] ++ x) d = (d :: ds).flatten
    induction ds generalizing d with
    | nil => simp
    | cons e es ih =>
      rw [List.foldl_cons, ih (d ++ [] ++ e)]
      simp

/-- flatten_units: flattening singleton fragments restores the characters. -/
theorem flatten_units (cs : List Char) : (cs.map (fun c => [c])).flatten = cs := by
  induction cs with
  | nil => rfl
  | cons c cs ih => simp [ih]

/-- join_docs_units: joining a window of character fragments gives the
stripped window (or nothing when it strips empty). -/
theorem join_docs_units (cs : List Char) :
    join_docs [] (cs.map (fun c => [c])) = stripSome cs := by
  unfold join_docs stripSome
  rw [joinWithSep_nil, flatten_units]

/-- mergeFinish_units: the trailing emit contributes the stripped window. -/
theorem mergeFinish_units (docs : List (List Char)) (cur : List Char) (t : ℕ) :
    mergeFinish [] ⟨docs, cur.map (fun c => [c]), t⟩
      = docs ++ (stripSome cur).toList := by
  unfold mergeFinish
  rw [show (MergeState.mk docs (cur.map (fun c => [c])) t).current
      = cur.map (fun c => [c]) from rfl]
  rw [join_docs_units]
  cases hs : stripSome cur <;> simp [hs]

/-- popWhile_units: on character fragments the inner while-loop keeps only
the last chunk_overlap characters (or everything when under the overlap). -/
theorem popWhile_units :
    ∀ cs : List Char,
      popWhile 0 chunk_overlap chunk_size 1 (cs.map (fun c => [c])) cs.length
        = ((cs.drop (cs.length - chunk_overlap)).map (fun c => [c]),
            min cs.length chunk_overlap) := by
  intro cs
  induction cs with
  | nil => simp [popWhile]
  | cons c cs ih =>
    simp only [List.map_cons, List.length_cons]
    unfold popWhile
    by_cases h : cs.length + 1 > chunk_overlap
    · rw [if_pos (Or.inl h)]
      have harg : cs.length + 1 - ([c].length + if (cs.map (fun c => [c])).length > 0 then 0 else 0)
          = cs.length := by
        simp
      rw [harg, ih]
      have hmin : min cs.length chunk_overlap = min (cs.length + 1) chunk_overlap := by
        simp only [chunk_overlap] at h ⊢
        omega
      have hdrop : cs.drop (cs.length - chunk_overlap)
          = (c :: cs).drop (cs.length + 1 - chunk_overlap) := by
        have hk : cs.length + 1 - chunk_overlap = (cs.length - chunk_overlap) + 1 := by
          simp only [chunk_overlap] at h ⊢
          omega
        rw [hk, List.drop_succ_cons]
      rw [hmin, hdrop]
    · rw [if_neg]
      · have hd : cs.length + 1 - chunk_overlap = 0 := by
          simp only [chunk_overlap] at h ⊢
          omega
        rw [hd, List.drop_zero]
        simp only [List.map_cons]
        rw [Nat.min_eq_left (by omega)]
      · push_neg
        constructor
        · omega
        · intro hc
          exfalso
          simp only [chunk_size, chunk_overlap] at h hc
          omega

/-- mergeStep_unit_fit: a character that still fits is appended to the
window without any emission. -/
theorem mergeStep_unit_fit (docs : List (List Char)) (cur : List Char) (c : Char)
    (hfit : cur.length + 1 ≤ chunk_size) :
    mergeStep 0 chunk_size chunk_overlap []
        ⟨docs, cur.map (fun c => [c]), cur.length⟩ [c]
      = ⟨docs, (cur ++ [c]).map (fun c => [c]), (cur ++ [c]).length⟩ := by
  unfold mergeStep
  simp only [List.length_singleton, ite_self]
  rw [if_neg (by omega)]
  simp

/-- mergeStep_unit_emit: a character overflowing the full window first emits
the stripped window, shrinks it to the overlap, then is appended. -/
theorem mergeStep_unit_emit (docs : List (List Char)) (cur : List Char) (c : Char)
    (hlen : cur.length = chunk_size) :
    mergeStep 0 chunk_size chunk_overlap []
        ⟨docs, cur.map (fun c => [c]), cur.length⟩ [c]
      = ⟨docs ++ (stripSome cur).toList,
          (cur.drop (chunk_size - chunk_overlap) ++ [c]).map (fun c => [c]),
          (cur.drop (chunk_size - chunk_overlap) ++ [c]).length⟩ := by
  have hover : chunk_overlap ≤ cur.length := by
    rw [hlen]
    simp [chunk_size, chunk_overlap]
  have hdrop : cur.length - chunk_overlap = chunk_size - chunk_overlap := by
    rw [hlen]
  have hdlen : (cur.drop (chunk_size - chunk_overlap)).length = chunk_overlap := by
    rw [List.length_drop, hlen]
    simp [chunk_size, chunk_overlap]
  unfold mergeStep
  simp only [List.length_singleton, ite_self]
  rw [if_pos (by omega)]
  rw [if_pos (by simp only [List.length_map, hlen, chunk_size]; omega)]
  rw [join_docs_units, popWhile_units, hdrop, Nat.min_eq_right hover]
  have h1000 : cur.length = 1000 := by simpa [chunk_size] using hlen
  cases hs : stripSome cur with
  | none =>
    simp only [Option.toList, List.append_nil]
    simp [List.map_append, chunk_size, chunk_overlap]
    omega
  | some w =>
    simp only [Option.toList]
    simp [List.map_append, chunk_size, chunk_overlap]
    omega

/-- merge_units_go: folding character fragments through the merge loop emits
exactly the stripped sliding windows of the remaining text, prefixed by the
docs already emitted; cur is the carried window. -/
theorem merge_units_go :
    ∀ (rest cur : List Char) (docs : List (List Char)),
      cur.length ≤ chunk_size →
      mergeFinish []
        ((rest.map (fun c => [c])).foldl (mergeStep 0 chunk_size chunk_overlap [])
          ⟨docs, cur.map (fun c => [c]), cur.length⟩)
        = docs ++ (slidingChunks (cur ++ rest)).filterMap stripSome := by
  intro rest
  induction rest with
  | nil =>
    intro cur docs hcur
    simp only [List.map_nil, List.foldl_nil]
    rw [mergeFinish_units, List.append_nil, slidingChunks, dif_pos hcur]
    cases hs : stripSome cur <;> simp [hs, List.filterMap]
  | cons c rest ih =>
    intro cur docs hcur
    simp only [List.map_cons, List.foldl_cons]
    by_cases hfit : cur.length + 1 ≤ chunk_size
    · rw [mergeStep_unit_fit docs cur c hfit,
        ih (cur ++ [c]) docs (by simpa using hfit)]
      have : cur ++ [c] ++ rest = cur ++ c :: rest := by simp
      rw [this]
    · have hlen : cur.length = chunk_size := by omega
      rw [mergeStep_unit_emit docs cur c hlen]
      have hnext : (cur.drop (chunk_size - chunk_overlap) ++ [c]).length ≤ chunk_size := by
        simp only [List.length_append, List.length_drop, hlen, List.length_singleton]
        simp [chunk_size, chunk_overlap]
      rw [ih _ _ hnext]
      have hsplit : slidingChunks (cur ++ c :: rest)
          = cur :: slidingChunks (cur.drop (chunk_size - chunk_overlap) ++ c :: rest) := by
        rw [slidingChunks, dif_neg (by
          simp only [List.length_append, List.length_cons, hlen]
          omega)]
        congr 1
        · rw [← hlen, List.take_left]
        · rw [List.drop_append_of_le_length (by
            rw [hlen]
            simp [chunk_size, chunk_overlap])]
      rw [hsplit, List.filterMap_cons]
      have harr : cur.drop (chunk_size - chunk_overlap) ++ [c] ++ rest
          = cur.drop (chunk_size - chunk_overlap) ++ c :: rest := by simp
      rw [harr]
      cases hs : stripSome cur <;> simp [hs]

/-- stripSome_no_ws: a nonempty whitespace-free window is emitted as is. -/
theorem stripSome_no_ws (w : List Char) (h : ∀ c ∈ w, c.isWhitespace = false)
    (hne : w ≠ []) : stripSome w = some w := by
  unfold stripSome
  rw [pyStrip_no_ws w h, if_neg hne]

/-- splitWithSep_nil_units: the empty separator splits into characters. -/
theorem splitWithSep_nil_units (t : List Char) :
    splitWithSep [] t = t.map (fun c => [c]) := by
  unfold splitWithSep
  rw [if_pos rfl]
  apply List.filter_eq_self.mpr
  intro s hs
  obtain ⟨c, _, hc⟩ := List.mem_map.mp hs
  simp [← hc]

/-- splitFold_good: fragments under the chunk size only accumulate in the
good-splits buffer. -/
theorem splitFold_good (r : List Char → List (List Char))
    (nsep : List (List Char)) :
    ∀ (us : List (List Char)) (acc : List (List Char) × List (List Char)),
      (∀ u ∈ us, u.length < chunk_size) →
      us.foldl (splitFoldStep r nsep) acc = (acc.1, acc.2 ++ us) := by
  intro us
  induction us with
  | nil => intro acc _; simp
  | cons u us ih =>
    intro acc h
    rw [List.foldl_cons]
    have hstep : splitFoldStep r nsep acc u = (acc.1, acc.2 ++ [u]) := by
      unfold splitFoldStep
      rw [if_pos (h u (List.mem_cons_self u us))]
    rw [hstep, ih _ (fun v hv => h v (List.mem_cons_of_mem u hv))]
    simp

/-- containsSeq_head_ne: a pattern whose first element never occurs in the
text is never found. -/
theorem containsSeq_head_ne (d : Char) (ds : List Char) :
    ∀ l : List Char, (∀ c ∈ l, c ≠ d) → containsSeq (d :: ds) l = false := by
  intro l
  induction l with
  | nil => intro _; rfl
  | cons c l ih =>
    intro h
    have hcd : (d == c) = false := by
      simp only [beq_eq_false_iff_ne, ne_eq]
      exact fun he => h c (List.mem_cons_self c l) he.symm
    unfold containsSeq
    rw [ih (fun x hx => h x (List.mem_cons_of_mem c hx))]
    unfold startsWithSeq
    rw [hcd]
    rfl

/-- containsSeq_single_of_mem: a one-element pattern is found when the
element occurs. -/
theorem containsSeq_single_of_mem (d : Char) :
    ∀ l : List Char, d ∈ l → containsSeq [d] l = true := by
  intro l
  induction l with
  | nil => intro h; cases h
  | cons c l ih =>
    intro h
    unfold containsSeq startsWithSeq
    rcases List.mem_cons.mp h with hc | hl
    · subst hc
      simp [startsWithSeq]
    · rw [ih hl]
      simp

/-- findSeq_single_none: no occurrence of the element, no find. -/
theorem findSeq_single_none (d : Char) :
    ∀ l : List Char, (∀ c ∈ l, c ≠ d) → findSeq [d] l = none := by
  intro l
  induction l with
  | nil => intro _; rfl
  | cons c l ih =>
    intro h
    have hcd : startsWithSeq [d] (c :: l) = false := by
      unfold startsWithSeq
      have : (d == c) = false := by
        simp only [beq_eq_false_iff_ne, ne_eq]
        exact fun he => h c (List.mem_cons_self c l) he.symm
      rw [this]
      rfl
    unfold findSeq
    rw [hcd, ih (fun x hx => h x (List.mem_cons_of_mem c hx))]
    simp

/-- findSeq_single_split: the leftmost occurrence splits the text there. -/
theorem findSeq_single_split (d : Char) :
    ∀ (pre suf : List Char), (∀ c ∈ pre, c ≠ d) →
      findSeq [d] (pre ++ d :: suf) = some (pre, suf) := by
  intro pre
  induction pre with
  | nil =>
    intro suf _
    simp only [List.nil_append]
    unfold findSeq
    rw [if_pos (by unfold startsWithSeq; simp [startsWithSeq])]
    simp
  | cons c pre ih =>
    intro suf h
    have hcd : startsWithSeq [d] (c :: (pre ++ d :: suf)) = false := by
      unfold startsWithSeq
      have : (d == c) = false := by
        simp only [beq_eq_false_iff_ne, ne_eq]
        exact fun he => h c (List.mem_cons_self c pre) he.symm
      rw [this]
      rfl
    show findSeq [d] (c :: (pre ++ d :: suf)) = some (c :: pre, suf)
    unfold findSeq
    rw [hcd, ih suf (fun x hx => h x (List.mem_cons_of_mem c hx))]
    simp

/-- splitAtSeq_succ restates one unfolding of the fuelled split. -/
theorem splitAtSeq_succ (pat : List Char) (f : ℕ) (text : List Char) :
    splitAtSeq pat (f + 1) text
      = match findSeq pat text with
        | none => [text]
        | some pr => pr.1 :: splitAtSeq pat f pr.2 := rfl

/-- splitAtSeq_one_occurrence: text with exactly one occurrence of the
element splits into the two surrounding pieces. -/
theorem splitAtSeq_one_occurrence (d : Char) (pre suf : List Char) (f : ℕ)
    (hpre : ∀ c ∈ pre, c ≠ d) (hsuf : ∀ c ∈ suf, c ≠ d) :
    splitAtSeq [d] (f + 2) (pre ++ d :: suf) = [pre, suf] := by
  rw [show f + 2 = (f + 1) + 1 from rfl, splitAtSeq_succ,
    findSeq_single_split d pre suf hpre]
  show pre :: splitAtSeq [d] (f + 1) suf = [pre, suf]
  rw [splitAtSeq_succ, findSeq_single_none d suf hsuf]

/-- chooseSep_default_no_ws: whitespace-free text falls through the default
cascade to the empty separator. -/
theorem chooseSep_default_no_ws (t : List Char)
    (hws : ∀ c ∈ t, c.isWhitespace = false) :
    chooseSep t default_separators = ([], []) := by
  have hn : ∀ c ∈ t, c ≠ '\n' := by
    intro c hc he
    have h1 := hws c hc
    rw [he, show Char.isWhitespace '\n' = true from by decide] at h1
    simp at h1
  have hsp : ∀ c ∈ t, c ≠ Char.ofNat 32 := by
    intro c hc he
    have h1 := hws c hc
    rw [he, show Char.isWhitespace (Char.ofNat 32) = true from by decide] at h1
    simp at h1
  have h1 : containsSeq ['\n', '\n'] t = false := containsSeq_head_ne '\n' ['\n'] t hn
  have h2 : containsSeq ['\n'] t = false := containsSeq_head_ne '\n' [] t hn
  have h3 : containsSeq [Char.ofNat 32] t = false :=
    containsSeq_head_ne (Char.ofNat 32) [] t hsp
  simp [chooseSep, default_separators, h1, h2, h3]

/-- split_rec_no_sep: once the cascade picks the empty separator, splitting
is the merge of character fragments, hence the stripped sliding windows. -/
theorem split_rec_no_sep (fuel : ℕ) (t : List Char) (seps : List (List Char))
    (hchoose : chooseSep t seps = ([], [])) (hne : t ≠ []) :
    split_text_rec (fuel + 1) t seps = (slidingChunks t).filterMap stripSome := by
  unfold split_text_rec
  simp only [hchoose]
  rw [splitWithSep_nil_units]
  rw [splitFold_good _ _ _ _ (fun u hu => by
    obtain ⟨c, _, hc⟩ := List.mem_map.mp hu
    simp [← hc, chunk_size])]
  rw [if_pos (by simpa using hne)]
  have hmain := merge_units_go t [] [] (by simp [chunk_size])
  unfold merge_splits
  simpa using hmain

/-- C7 amended: for a 2500-character input containing no whitespace (hence
none of the splitter's separators), chunking produces exactly 3 chunks with
boundaries [0,1000), [900,1900), [1800,2500); inputs containing separator
characters are split at those separators instead. -/
theorem chunking_of_separator_free_text :
    ∀ t : List Char, t.length = 2500 → (∀ c ∈ t, c.isWhitespace = false) →
      split_text t = [t.take 1000, (t.drop 900).take 1000, t.drop 1800] ∧
      (split_text t).length = 3 := by
  intro t hlen hws
  have hne : t ≠ [] := by
    intro h
    rw [h] at hlen
    simp at hlen
  have hmain : split_text t = (slidingChunks t).filterMap stripSome := by
    unfold split_text
    exact split_rec_no_sep _ t _ (chooseSep_default_no_ws t hws) hne
  have hd1 : (t.drop (chunk_size - chunk_overlap)).length = 1600 := by
    rw [List.length_drop, hlen]
    simp [chunk_size, chunk_overlap]
  have hwin : slidingChunks t
      = [t.take 1000, (t.drop 900).take 1000, t.drop 1800] := by
    rw [slidingChunks, dif_neg (by rw [hlen]; simp [chunk_size])]
    rw [slidingChunks, dif_neg (by rw [hd1]; simp [chunk_size])]
    rw [slidingChunks, dif_pos (by
      rw [List.length_drop, hd1]
      simp [chunk_size, chunk_overlap])]
    rw [List.drop_drop]
    norm_num [chunk_size, chunk_overlap]
  have hs1 : stripSome (t.take 1000) = some (t.take 1000) :=
    stripSome_no_ws _ (fun c hc => hws c (List.take_subset _ _ hc)) (by
      intro h
      have := congrArg List.length h
      rw [List.length_take, hlen] at this
      simp at this)
  have hs2 : stripSome ((t.drop 900).take 1000) = some ((t.drop 900).take 1000) :=
    stripSome_no_ws _
      (fun c hc => hws c (List.drop_subset _ _ (List.take_subset _ _ hc))) (by
      intro h
      have := congrArg List.length h
      rw [List.length_take, List.length_drop, hlen] at this
      simp at this)
  have hs3 : stripSome (t.drop 1800) = some (t.drop 1800) :=
    stripSome_no_ws _ (fun c hc => hws c (List.drop_subset _ _ hc)) (by
      intro h
      have := congrArg List.length h
      rw [List.length_drop, hlen] at this
      simp at this)
  have heq : split_text t = [t.take 1000, (t.drop 900).take 1000, t.drop 1800] := by
    rw [hmain, hwin]
    simp [List.filterMap_cons, hs1, hs2, hs3]
  exact ⟨heq, by rw [heq]; rfl⟩

/-- C7 witness: the amended theorem applied to the all-letter input. -/
theorem chunking_of_separator_free_text_witness :
    split_text (List.replicate 2500 'a')
      = [(List.replicate 2500 'a').take 1000,
          ((List.replicate 2500 'a').drop 900).take 1000,
          (List.replicate 2500 'a').drop 1800] ∧
    (split_text (List.replicate 2500 'a')).length = 3 :=
  chunking_of_separator_free_text (List.replicate 2500 'a')
    (by rw [List.length_replicate])
    (fun c hc => by
      rw [(List.mem_replicate.mp hc).2]
      decide)

/-- pyStrip_cons_ws: one leading whitespace character before whitespace-free
text is stripped away. -/
theorem pyStrip_cons_ws (c : Char) (hc : c.isWhitespace = true) (l : List Char)
    (h : ∀ x ∈ l, x.isWhitespace = false) : pyStrip (c :: l) = l := by
  show ((List.dropWhile Char.isWhitespace
      (c :: l)).reverse.dropWhile Char.isWhitespace).reverse = l
  rw [List.dropWhile_cons_of_pos hc]
  exact pyStrip_no_ws l h

/-- split_text_rec_succ restates one unfolding of the splitter recursion. -/
theorem split_text_rec_succ (fuel : ℕ) (text : List Char)
    (separators : List (List Char)) :
    split_text_rec (fuel + 1) text separators
      = (let chosen := chooseSep text separators
         let splits := splitWithSep chosen.1 text
         let folded := splits.foldl
           (splitFoldStep (fun s => split_text_rec fuel s chosen.2) chosen.2) ([], [])
         if folded.2 ≠ [] then folded.1 ++ merge_splits [] folded.2 else folded.1) := rfl

/-- split_text_rec_step specializes one unfolding to a known separator
choice and fragment list. -/
theorem split_text_rec_step (fuel : ℕ) (text : List Char)
    (separators : List (List Char)) (sep : List Char) (nsep : List (List Char))
    (splits : List (List Char))
    (hch : chooseSep text separators = (sep, nsep))
    (hsp : splitWithSep sep text = splits) :
    split_text_rec (fuel + 1) text separators
      = (let folded := splits.foldl
           (splitFoldStep (fun s => split_text_rec fuel s nsep) nsep) ([], [])
         if folded.2 ≠ [] then folded.1 ++ merge_splits [] folded.2
         else folded.1) := by
  subst hsp
  rw [split_text_rec_succ, hch]

/-- split_text_rec_result finishes the unfolding when the fold is known to
leave an empty buffer. -/
theorem split_text_rec_result (fuel : ℕ) (text : List Char)
    (separators : List (List Char)) (sep : List Char) (nsep : List (List Char))
    (splits docs : List (List Char))
    (hch : chooseSep text separators = (sep, nsep))
    (hsp : splitWithSep sep text = splits)
    (hfold : splits.foldl
        (splitFoldStep (fun s => split_text_rec fuel s nsep) nsep) ([], [])
      = (docs, [])) :
    split_text_rec (fuel + 1) text separators = docs := by
  rw [split_text_rec_succ, hch]
  simp only [hsp, hfold]
  simp

/-- replicate_no_ws: letter runs contain no whitespace. -/
theorem replicate_no_ws (n : ℕ) :
    ∀ c ∈ List.replicate n 'a', c.isWhitespace = false := by
  intro c hc
  rw [(List.mem_replicate.mp hc).2]
  decide

/-- C7 counterexample: the 2500-character input with one space at position
500 is split at the space: the result has 4 chunks (500, 999, 1000 and 200
letters — the second loses the leading space to stripping), not the claimed
3 chunks at [0,1000), [900,1900), [1800,2500). -/
theorem chunking_depends_on_separators :
    c7SpacedText.length = 2500 ∧
    split_text c7SpacedText
      = [List.replicate 500 'a', List.replicate 999 'a',
          List.replicate 1000 'a', List.replicate 200 'a'] ∧
    (split_text c7SpacedText).length ≠ 3 := by
  have hlen : c7SpacedText.length = 2500 := by
    simp [-List.reduceReplicate, c7SpacedText]
  have hmem : ∀ c ∈ c7SpacedText, c = 'a' ∨ c = Char.ofNat 32 := by
    intro c hc
    simp only [c7SpacedText, List.mem_append, List.mem_cons,
      List.mem_replicate] at hc
    rcases hc with ⟨_, h⟩ | h | ⟨_, h⟩
    · exact Or.inl h
    · exact Or.inr h
    · exact Or.inl h
  have hn : ∀ c ∈ c7SpacedText, c ≠ '\n' := by
    intro c hc
    rcases hmem c hc with h | h <;> rw [h] <;> decide
  have h1 : containsSeq ['\n', '\n'] c7SpacedText = false :=
    containsSeq_head_ne '\n' ['\n'] _ hn
  have h2 : containsSeq ['\n'] c7SpacedText = false :=
    containsSeq_head_ne '\n' [] _ hn
  have hspmem : Char.ofNat 32 ∈ c7SpacedText := by
    simp [-List.reduceReplicate, c7SpacedText]
  have h3 : containsSeq [Char.ofNat 32] c7SpacedText = true :=
    containsSeq_single_of_mem _ _ hspmem
  have hchoose : chooseSep c7SpacedText default_separators
      = ([Char.ofNat 32], [[]]) := by
    simp [-List.reduceReplicate, chooseSep, default_separators, h1, h2, h3]
  have hprea : ∀ c ∈ List.replicate 500 'a', c ≠ Char.ofNat 32 := by
    intro c hc
    rw [(List.mem_replicate.mp hc).2]
    decide
  have hsufa : ∀ c ∈ List.replicate 1999 'a', c ≠ Char.ofNat 32 := by
    intro c hc
    rw [(List.mem_replicate.mp hc).2]
    decide
  have hsplits : splitWithSep [Char.ofNat 32] c7SpacedText
      = [List.replicate 500 'a', Char.ofNat 32 :: List.replicate 1999 'a'] := by
    unfold splitWithSep
    rw [if_neg (by simp [-List.reduceReplicate])]
    rw [hlen, show (2500 : ℕ) = 2498 + 2 from rfl]
    rw [show c7SpacedText
        = List.replicate 500 'a' ++ Char.ofNat 32 :: List.replicate 1999 'a' from rfl]
    rw [splitAtSeq_one_occurrence (Char.ofNat 32) _ _ 2498 hprea hsufa]
    simp [-List.reduceReplicate]
  have hmerge1 : merge_splits [] [List.replicate 500 'a']
      = [List.replicate 500 'a'] := by
    unfold merge_splits
    simp only [List.foldl_cons, List.foldl_nil, List.length_nil]
    have hstep : mergeStep 0 chunk_size chunk_overlap [] ⟨[], [], 0⟩
        (List.replicate 500 'a') = ⟨[], [List.replicate 500 'a'], 500⟩ := by
      unfold mergeStep
      simp [-List.reduceReplicate, chunk_size]
    rw [hstep]
    unfold mergeFinish
    have hjd : join_docs [] [List.replicate 500 'a']
        = some (List.replicate 500 'a') := by
      unfold join_docs
      rw [joinWithSep_nil]
      rw [show ([List.replicate 500 'a'] : List (List Char)).flatten
          = List.replicate 500 'a' from by simp [-List.reduceReplicate]]
      rw [pyStrip_no_ws _ (replicate_no_ws 500)]
      rw [if_neg (by simp [-List.reduceReplicate])]
    rw [hjd]
    rfl
  have hrec : split_text_rec 4 (Char.ofNat 32 :: List.replicate 1999 'a') [[]]
      = [List.replicate 999 'a', List.replicate 1000 'a',
          List.replicate 200 'a'] := by
    rw [show (4 : ℕ) = 3 + 1 from rfl]
    rw [split_rec_no_sep 3 _ [[]] (by simp [-List.reduceReplicate, chooseSep]) (by simp [-List.reduceReplicate])]
    have hl2 : (Char.ofNat 32 :: List.replicate 1999 'a').length = 2000 := by
      simp [-List.reduceReplicate]
    rw [slidingChunks, dif_neg (by rw [hl2]; simp [-List.reduceReplicate, chunk_size])]
    have htk1 : (Char.ofNat 32 :: List.replicate 1999 'a').take chunk_size
        = Char.ofNat 32 :: List.replicate 999 'a' := by
      rw [show chunk_size = 999 + 1 from rfl, List.take_succ_cons,
        List.take_replicate]
      rfl
    have hdp1 : (Char.ofNat 32 :: List.replicate 1999 'a').drop
          (chunk_size - chunk_overlap) = List.replicate 1100 'a' := by
      rw [show chunk_size - chunk_overlap = 899 + 1 from rfl,
        List.drop_succ_cons, List.drop_replicate]
    rw [htk1, hdp1]
    rw [slidingChunks, dif_neg (by simp [-List.reduceReplicate, chunk_size])]
    rw [List.take_replicate, List.drop_replicate]
    rw [show min chunk_size 1100 = 1000 from by simp [-List.reduceReplicate, chunk_size],
      show (1100 : ℕ) - (chunk_size - chunk_overlap) = 200 from by
        simp [-List.reduceReplicate, chunk_size, chunk_overlap]]
    rw [slidingChunks, dif_pos (by simp [-List.reduceReplicate, chunk_size])]
    have hssp : stripSome (Char.ofNat 32 :: List.replicate 999 'a')
        = some (List.replicate 999 'a') := by
      unfold stripSome
      rw [pyStrip_cons_ws _ (by decide) _ (replicate_no_ws 999)]
      rw [if_neg (by simp [-List.reduceReplicate])]
    have hs1000 : stripSome (List.replicate 1000 'a')
        = some (List.replicate 1000 'a') :=
      stripSome_no_ws _ (replicate_no_ws 1000) (by simp [-List.reduceReplicate])
    have hs200 : stripSome (List.replicate 200 'a')
        = some (List.replicate 200 'a') :=
      stripSome_no_ws _ (replicate_no_ws 200) (by simp [-List.reduceReplicate])
    simp only [List.filterMap_cons, List.filterMap_nil, hssp, hs1000, hs200]
  have hsplit_eq : split_text c7SpacedText
      = [List.replicate 500 'a', List.replicate 999 'a',
          List.replicate 1000 'a', List.replicate 200 'a'] := by
    have hstep1 : splitFoldStep (fun s => split_text_rec 4 s [[]])
        [[]] ([], []) (List.replicate 500 'a')
        = ([], [List.replicate 500 'a']) := by
      unfold splitFoldStep
      rw [if_pos (by simp [-List.reduceReplicate, chunk_size])]
      rfl
    have hstep2 : splitFoldStep (fun s => split_text_rec 4 s [[]])
        [[]] ([], [List.replicate 500 'a'])
        (Char.ofNat 32 :: List.replicate 1999 'a')
        = ([List.replicate 500 'a', List.replicate 999 'a',
            List.replicate 1000 'a', List.replicate 200 'a'], []) := by
      unfold splitFoldStep
      rw [if_neg (by simp [-List.reduceReplicate, chunk_size])]
      simp [-List.reduceReplicate, hmerge1, hrec]
    have hfold : ([List.replicate 500 'a',
          Char.ofNat 32 :: List.replicate 1999 'a'] : List (List Char)).foldl
        (splitFoldStep (fun s => split_text_rec 4 s [[]]) [[]]) ([], [])
        = ([List.replicate 500 'a', List.replicate 999 'a',
            List.replicate 1000 'a', List.replicate 200 'a'], []) := by
      rw [List.foldl_cons, hstep1, List.foldl_cons, hstep2, List.foldl_nil]
    unfold split_text
    rw [show default_separators.length + 1 = 4 + 1 from rfl]
    exact split_text_rec_result 4 c7SpacedText default_separators
      [Char.ofNat 32] [[]] _ _ hchoose hsplits hfold
  refine ⟨hlen, hsplit_eq, ?_⟩
  rw [hsplit_eq]
  simp [-List.reduceReplicate]

/-- normalizeField always lands in [0, 100]: a missing or non-convertible
field becomes 15 and a convertible one is clamped. -/
theorem normalizeField_bounds (scores : List (String × Json)) (field : String) :
    0 ≤ normalizeField scores field ∧ normalizeField scores field ≤ 100 := by
  unfold normalizeField
  cases lookupField scores field with
  | none => norm_num
  | some v =>
    cases hv : pyFloat v with
    | none => simp only [hv]; norm_num
    | some q =>
      simp only [hv]
      exact ⟨le_max_left 0 _, max_le (by norm_num) (min_le_left _ _)⟩

/-- normalizeScores keeps every numeric field inside [0, 100], including the
recomputed weighted overall score. -/
theorem normalizeScores_bounds (scores : List (String × Json)) :
    (0 ≤ (normalizeScores scores).skill_match_score ∧
      (normalizeScores scores).skill_match_score ≤ 100) ∧
    (0 ≤ (normalizeScores scores).experience_relevance_score ∧
      (normalizeScores scores).experience_relevance_score ≤ 100) ∧
    (0 ≤ (normalizeScores scores).education_alignment_score ∧
      (normalizeScores scores).education_alignment_score ≤ 100) ∧
    (0 ≤ (normalizeScores scores).overall_fit_score ∧
      (normalizeScores scores).overall_fit_score ≤ 100) := by
  obtain ⟨hs0, hs1⟩ := normalizeField_bounds scores "skill_match_score"
  obtain ⟨he0, he1⟩ := normalizeField_bounds scores "experience_relevance_score"
  obtain ⟨hd0, hd1⟩ := normalizeField_bounds scores "education_alignment_score"
  obtain ⟨ho0, ho1⟩ := normalizeField_bounds scores "overall_fit_score"
  unfold normalizeScores
  refine ⟨⟨hs0, hs1⟩, ⟨he0, he1⟩, ⟨hd0, hd1⟩, ?_⟩
  dsimp only
  split
  · constructor <;> nlinarith
  · exact ⟨ho0, ho1⟩

/-- C10: on every execution path of calculate_fit_score — short-circuit,
successful response (with any mixture of missing, numeric, string, or
non-numeric fields), a propagated decode failure, or any other error — all
four numeric fields of the returned mapping lie in [0, 100]. -/
theorem fit_scores_bounded :
    ∀ (parsed : CombinedInfo) (attempts : List FitAttempt),
      (0 ≤ (calculate_fit_score parsed attempts).1.skill_match_score ∧
        (calculate_fit_score parsed attempts).1.skill_match_score ≤ 100) ∧
      (0 ≤ (calculate_fit_score parsed attempts).1.experience_relevance_score ∧
        (calculate_fit_score parsed attempts).1.experience_relevance_score ≤ 100) ∧
      (0 ≤ (calculate_fit_score parsed attempts).1.education_alignment_score ∧
        (calculate_fit_score parsed attempts).1.education_alignment_score ≤ 100) ∧
      (0 ≤ (calculate_fit_score parsed attempts).1.overall_fit_score ∧
        (calculate_fit_score parsed attempts).1.overall_fit_score ≤ 100) := by
  intro parsed attempts
  unfold calculate_fit_score
  split
  · norm_num
  · split
    · exact normalizeScores_bounds _
    · norm_num
    · norm_num

end SmartHireAI
